import Mathlib

/-!
Verification of the report-structurer core of the financial-report workflow
repository: the keyword classifier and Markdown assembler of
`tasks/generate_md_report` and the periods Markdown formatter of
`tasks/generate_periods_markdown`, shallowly embedded over `List Char`
(Python strings) with the clock passed explicitly.
-/

/-- Whitespace characters stripped by Python `str.strip()` (ASCII range). -/
def pyWs (c : Char) : Bool :=
  c == ' ' || c == '\t' || c == '\n' || c == '\r' || c == '\x0b' || c == '\x0c'

/-- Python `str.strip()`: remove leading and trailing whitespace. -/
def trim (s : List Char) : List Char :=
  ((s.dropWhile pyWs).reverse.dropWhile pyWs).reverse

/-- Python `needle in haystack`: contiguous substring containment. -/
def isSubstrOf (needle : List Char) : List Char → Bool
  | [] => needle == []
  | c :: rest => needle.isPrefixOf (c :: rest) || isSubstrOf needle rest

/-- Python `any(keyword in text for keyword in keywords)`. -/
def matchesAny (text : List Char) (keywords : List (List Char)) : Bool :=
  keywords.any (fun k => isSubstrOf k text)

/-- Decimal digit character for a digit value 0–9. -/
def digitCh (d : Nat) : Char :=
  match d with
  | 0 => '0' | 1 => '1' | 2 => '2' | 3 => '3' | 4 => '4'
  | 5 => '5' | 6 => '6' | 7 => '7' | 8 => '8' | _ => '9'

/-- Decimal rendering of a natural number, as Python `str(n)` / `f"{n}"`. -/
def natChars (n : Nat) : List Char :=
  if n = 0 then ['0'] else ((Nat.digits 10 n).map digitCh).reverse

/-- Numeric value of a decimal digit character. -/
def chVal (c : Char) : Nat := c.toNat - 48

/-- Left-to-right decimal parse of a digit string. -/
def parseNat (ds : List Char) : Nat := ds.foldl (fun a c => a * 10 + chVal c) 0

/-- One question/answer record of the report data. -/
structure QARecord where
  question : List Char
  answer : List Char
deriving DecidableEq, Repr

/-- The six fixed content categories. -/
inductive Category
  | financial | business | analysis | management | governance | other
deriving DecidableEq, Repr

/-- The six category buckets built by `classify_content` (dict of lists). -/
structure Categories where
  financial : List QARecord
  business : List QARecord
  analysis : List QARecord
  management : List QARecord
  governance : List QARecord
  other : List QARecord
deriving DecidableEq, Repr

def emptyCategories : Categories := ⟨[], [], [], [], [], []⟩

def financial_keywords : List (List Char) :=
  [("收入").data, ("利润").data, ("负债").data, ("资产").data, ("现金流").data,
   ("毛利").data, ("股息").data, ("财务").data, ("盈利").data, ("营收").data,
   ("EBITDA").data, ("成本").data, ("费用").data, ("税收").data]

def business_keywords : List (List Char) :=
  [("业务").data, ("运营").data, ("项目").data, ("市场").data, ("产品").data,
   ("服务").data, ("战略").data, ("投资").data, ("合作").data, ("布局").data,
   ("发展").data, ("扩张").data, ("竞争").data]

def analysis_keywords : List (List Char) :=
  [("分析").data, ("操纵").data, ("风险").data, ("评估").data, ("模型").data,
   ("指标").data, ("比率").data, ("趋势").data, ("预测").data, ("展望").data]

def management_keywords : List (List Char) :=
  [("管理层").data, ("高管").data, ("董事").data, ("薪酬").data, ("激励").data,
   ("员工").data, ("人事").data, ("变动").data, ("任命").data, ("离职").data]

def governance_keywords : List (List Char) :=
  [("治理").data, ("合规").data, ("监管").data, ("审计").data, ("内控").data,
   ("制度").data, ("规范").data, ("透明度").data, ("责任").data]

/-- One iteration of the `for report in reports` loop of `classify_content`:
trim question and answer, skip the record when either is empty, otherwise
append the (original) record to the first bucket whose keyword set matches the
probe `question + " " + answer[:100]`. -/
def classifyStep (cats : Categories) (report : QARecord) : Categories :=
  let question := trim report.question
  let answer := trim report.answer
  if question == [] || answer == [] then cats
  else
    let text_to_check := question ++ ' ' :: answer.take 100
    if matchesAny text_to_check financial_keywords then
      { cats with financial := cats.financial ++ [report] }
    else if matchesAny text_to_check business_keywords then
      { cats with business := cats.business ++ [report] }
    else if matchesAny text_to_check analysis_keywords then
      { cats with analysis := cats.analysis ++ [report] }
    else if matchesAny text_to_check management_keywords then
      { cats with management := cats.management ++ [report] }
    else if matchesAny text_to_check governance_keywords then
      { cats with governance := cats.governance ++ [report] }
    else
      { cats with other := cats.other ++ [report] }

/-- `classify_content` of `tasks/generate_md_report`: classify Q&A content
into the six category buckets. -/
def classify_content (reports : List QARecord) : Categories :=
  reports.foldl classifyStep emptyCategories

/-- Whether a record survives the empty-question/empty-answer skip. -/
def keptRecord (r : QARecord) : Bool :=
  !(trim r.question == [] || trim r.answer == [])

/-- The probe string `question + " " + answer[:100]` built from the trimmed
question and answer of a record. -/
def probeOf (r : QARecord) : List Char :=
  trim r.question ++ ' ' :: (trim r.answer).take 100

/-- Category decision for a single record: `none` when the record is dropped,
otherwise the first keyword set (in source order) matching the probe. -/
def classifyRecord (r : QARecord) : Option Category :=
  if keptRecord r then
    if matchesAny (probeOf r) financial_keywords then some .financial
    else if matchesAny (probeOf r) business_keywords then some .business
    else if matchesAny (probeOf r) analysis_keywords then some .analysis
    else if matchesAny (probeOf r) management_keywords then some .management
    else if matchesAny (probeOf r) governance_keywords then some .governance
    else some .other
  else none

/-- Bucket selector. -/
def bucketOf (cats : Categories) : Category → List QARecord
  | .financial => cats.financial
  | .business => cats.business
  | .analysis => cats.analysis
  | .management => cats.management
  | .governance => cats.governance
  | .other => cats.other

/-- Append a record to the bucket named by the category. -/
def addToBucket (cats : Categories) (c : Category) (r : QARecord) : Categories :=
  match c with
  | .financial => { cats with financial := cats.financial ++ [r] }
  | .business => { cats with business := cats.business ++ [r] }
  | .analysis => { cats with analysis := cats.analysis ++ [r] }
  | .management => { cats with management := cats.management ++ [r] }
  | .governance => { cats with governance := cats.governance ++ [r] }
  | .other => { cats with other := cats.other ++ [r] }

/-- All six buckets concatenated in the fixed category order. -/
def allRecords (cats : Categories) : List QARecord :=
  cats.financial ++ cats.business ++ cats.analysis ++ cats.management ++
    cats.governance ++ cats.other

example : classifyRecord ⟨("营收增长如何？").data, ("营收同比增长20%").data⟩ =
    some .financial := by decide

example : classifyRecord ⟨("管理层变动").data, ("CFO离职").data⟩ =
    some .management := by decide

example : classifyRecord ⟨("  ").data, ("x").data⟩ = none := by decide

/-- Records of a list kept and assigned category `c`, in input order. -/
def catFilter (c : Category) (l : List QARecord) : List QARecord :=
  l.filter (fun r => classifyRecord r == some c)

theorem classifyStep_eq (cats : Categories) (r : QARecord) :
    classifyStep cats r =
      match classifyRecord r with
      | none => cats
      | some c => addToBucket cats c r := by
  have hp : probeOf r = trim r.question ++ ' ' :: (trim r.answer).take 100 := rfl
  unfold classifyStep classifyRecord keptRecord
  rw [hp]
  split_ifs <;> simp_all [addToBucket]

theorem foldl_classifyStep (l : List QARecord) (cats : Categories) :
    l.foldl classifyStep cats =
      ⟨cats.financial ++ catFilter .financial l,
       cats.business ++ catFilter .business l,
       cats.analysis ++ catFilter .analysis l,
       cats.management ++ catFilter .management l,
       cats.governance ++ catFilter .governance l,
       cats.other ++ catFilter .other l⟩ := by
  induction l generalizing cats with
  | nil => simp [catFilter]
  | cons r t ih =>
    rw [List.foldl_cons, ih, classifyStep_eq]
    rcases h : classifyRecord r with _ | c
    · simp [catFilter, List.filter_cons, h]
    · cases c <;> simp [catFilter, List.filter_cons, h, addToBucket]

theorem classify_content_eq (l : List QARecord) :
    classify_content l =
      ⟨catFilter .financial l, catFilter .business l, catFilter .analysis l,
       catFilter .management l, catFilter .governance l, catFilter .other l⟩ := by
  rw [classify_content, foldl_classifyStep]
  rfl

theorem mem_bucket_iff (reports : List QARecord) (r : QARecord) (c : Category) :
    r ∈ bucketOf (classify_content reports) c ↔
      r ∈ reports ∧ classifyRecord r = some c := by
  rw [classify_content_eq]
  cases c <;> simp [bucketOf, catFilter, List.mem_filter]

theorem classifyRecord_eq_none_iff (r : QARecord) :
    classifyRecord r = none ↔ keptRecord r = false := by
  unfold classifyRecord
  cases h : keptRecord r <;> simp [h] <;> split_ifs <;> simp

theorem catFilters_multiset (l : List QARecord) :
    ((catFilter .financial l ++ catFilter .business l ++ catFilter .analysis l ++
      catFilter .management l ++ catFilter .governance l ++ catFilter .other l :
        List QARecord) : Multiset QARecord) = ↑(l.filter keptRecord) := by
  induction l with
  | nil => simp [catFilter]
  | cons r t ih =>
    rcases h : classifyRecord r with _ | c
    · have hk : keptRecord r = false := (classifyRecord_eq_none_iff r).mp h
      simpa [catFilter, List.filter_cons, h, hk] using ih
    · have hk : keptRecord r = true := by
        cases hk : keptRecord r
        · rw [(classifyRecord_eq_none_iff r).mpr hk] at h; cases h
        · rfl
      cases c <;>
        (simp only [catFilter, List.filter_cons, h, hk, beq_iff_eq, Option.some.injEq,
          reduceCtorEq, if_true, if_false, decide_eq_true_eq, ← Multiset.coe_add,
          ← Multiset.cons_coe, ← Multiset.singleton_add] at ih ⊢) <;>
        rw [← ih] <;> abel

/-- Claim C1: the multiset union of the six category buckets returned by
`classify_content` equals the input list minus exactly the records whose
trimmed question or answer is empty, and no record occurrence lands in two
distinct buckets. -/
theorem classify_content_partitions (reports : List QARecord) :
    ((allRecords (classify_content reports) : List QARecord) : Multiset QARecord) =
      ↑(reports.filter keptRecord) ∧
    ∀ (r : QARecord) (c₁ c₂ : Category),
      r ∈ bucketOf (classify_content reports) c₁ →
      r ∈ bucketOf (classify_content reports) c₂ → c₁ = c₂ := by
  constructor
  · rw [classify_content_eq]
    simpa [allRecords] using catFilters_multiset reports
  · intro r c₁ c₂ h₁ h₂
    rw [mem_bucket_iff] at h₁ h₂
    have := h₁.2.symm.trans h₂.2
    exact Option.some.inj this

theorem classify_content_partitions_witness :
    Category.financial = Category.financial :=
  (classify_content_partitions [⟨("收入").data, ("好").data⟩]).2
    ⟨("收入").data, ("好").data⟩ .financial .financial
    (by rw [mem_bucket_iff]; exact ⟨by decide, by decide⟩)
    (by rw [mem_bucket_iff]; exact ⟨by decide, by decide⟩)

/-- Claim C2: a record whose probe matches a financial keyword never lands in
the business, analysis, management, governance or other bucket, and in
general the five keyword sets are tested in the fixed source order with the
first match winning and unmatched kept records going to `other`. -/
theorem financial_priority (reports : List QARecord) (r : QARecord) :
    (matchesAny (probeOf r) financial_keywords = true →
      r ∉ (classify_content reports).business ∧
      r ∉ (classify_content reports).analysis ∧
      r ∉ (classify_content reports).management ∧
      r ∉ (classify_content reports).governance ∧
      r ∉ (classify_content reports).other) ∧
    (keptRecord r = true →
      ((classifyRecord r = some .financial ↔
          matchesAny (probeOf r) financial_keywords = true) ∧
       (classifyRecord r = some .business ↔
          matchesAny (probeOf r) financial_keywords = false ∧
          matchesAny (probeOf r) business_keywords = true) ∧
       (classifyRecord r = some .analysis ↔
          matchesAny (probeOf r) financial_keywords = false ∧
          matchesAny (probeOf r) business_keywords = false ∧
          matchesAny (probeOf r) analysis_keywords = true) ∧
       (classifyRecord r = some .management ↔
          matchesAny (probeOf r) financial_keywords = false ∧
          matchesAny (probeOf r) business_keywords = false ∧
          matchesAny (probeOf r) analysis_keywords = false ∧
          matchesAny (probeOf r) management_keywords = true) ∧
       (classifyRecord r = some .governance ↔
          matchesAny (probeOf r) financial_keywords = false ∧
          matchesAny (probeOf r) business_keywords = false ∧
          matchesAny (probeOf r) analysis_keywords = false ∧
          matchesAny (probeOf r) management_keywords = false ∧
          matchesAny (probeOf r) governance_keywords = true) ∧
       (classifyRecord r = some .other ↔
          matchesAny (probeOf r) financial_keywords = false ∧
          matchesAny (probeOf r) business_keywords = false ∧
          matchesAny (probeOf r) analysis_keywords = false ∧
          matchesAny (probeOf r) management_keywords = false ∧
          matchesAny (probeOf r) governance_keywords = false))) := by
  have hcr : ∀ c, classifyRecord r = some c →
      matchesAny (probeOf r) financial_keywords = true → c = .financial := by
    intro c hc hf
    unfold classifyRecord at hc
    rcases hk : keptRecord r with _ | _ <;> rw [hk] at hc
    · cases hc
    · rw [if_pos rfl, if_pos hf] at hc
      exact (Option.some.inj hc).symm
  constructor
  · intro hf
    refine ⟨fun hm => ?_, fun hm => ?_, fun hm => ?_, fun hm => ?_, fun hm => ?_⟩
    · exact Category.noConfusion (hcr _ ((mem_bucket_iff reports r .business).mp hm).2 hf)
    · exact Category.noConfusion (hcr _ ((mem_bucket_iff reports r .analysis).mp hm).2 hf)
    · exact Category.noConfusion (hcr _ ((mem_bucket_iff reports r .management).mp hm).2 hf)
    · exact Category.noConfusion (hcr _ ((mem_bucket_iff reports r .governance).mp hm).2 hf)
    · exact Category.noConfusion (hcr _ ((mem_bucket_iff reports r .other).mp hm).2 hf)
  · intro hk
    unfold classifyRecord
    rw [hk, if_pos rfl]
    rcases h1 : matchesAny (probeOf r) financial_keywords with _ | _ <;>
      rcases h2 : matchesAny (probeOf r) business_keywords with _ | _ <;>
        rcases h3 : matchesAny (probeOf r) analysis_keywords with _ | _ <;>
          rcases h4 : matchesAny (probeOf r) management_keywords with _ | _ <;>
            rcases h5 : matchesAny (probeOf r) governance_keywords with _ | _ <;>
              simp

theorem financial_priority_witness :
    ⟨("收入与治理").data, ("合规很好").data⟩ ∉
      (classify_content [⟨("收入与治理").data, ("合规很好").data⟩]).governance :=
  ((financial_priority [⟨("收入与治理").data, ("合规很好").data⟩]
    ⟨("收入与治理").data, ("合规很好").data⟩).1 (by decide)).2.2.2.1

/-- Claim C3, counterexample: for the record with question `"收"` and answer
`"入"`, the concatenation of the question with the first 100 characters of the
answer is `"收入"`, which matches a financial keyword, yet `classify_content`
puts the record in the `other` bucket — so the probe actually used is not that
concatenation (the source inserts a space between question and answer). -/
theorem probe_concat_cex :
    matchesAny (trim (QARecord.mk (("收").data) (("入").data)).question ++
        (trim (QARecord.mk (("收").data) (("入").data)).answer).take 100)
        financial_keywords = true ∧
    (classify_content [QARecord.mk (("收").data) (("入").data)]).financial = [] ∧
    (classify_content [QARecord.mk (("收").data) (("入").data)]).other =
      [QARecord.mk (("收").data) (("入").data)] := by
  refine ⟨by decide, ?_, ?_⟩ <;> decide

/-- Claim C3 as amended: the probe is the trimmed question, a single space,
and the first 100 characters of the trimmed answer; hence two records whose
trimmed questions agree and whose trimmed answers agree on their first 100
characters are always assigned the same category (including both being
dropped), regardless of the rest of the answer. -/
theorem probe_determines_category (r₁ r₂ : QARecord)
    (hq : trim r₁.question = trim r₂.question)
    (ha : (trim r₁.answer).take 100 = (trim r₂.answer).take 100) :
    classifyRecord r₁ = classifyRecord r₂ := by
  have hemp : (trim r₁.answer == ([] : List Char)) = (trim r₂.answer == []) := by
    rcases h1 : trim r₁.answer with _ | ⟨c, t⟩ <;>
      rcases h2 : trim r₂.answer with _ | ⟨d, u⟩ <;> rw [h1, h2] at ha <;> simp_all
  have hk : keptRecord r₁ = keptRecord r₂ := by
    unfold keptRecord; rw [hq, hemp]
  have hp : probeOf r₁ = probeOf r₂ := by
    unfold probeOf; rw [hq, ha]
  unfold classifyRecord
  rw [hk, hp]

theorem probe_determines_category_witness :
    classifyRecord ⟨("收入").data, ("好").data⟩ =
      classifyRecord ⟨(" 收入 ").data, ("好  ").data⟩ :=
  probe_determines_category ⟨("收入").data, ("好").data⟩
    ⟨(" 收入 ").data, ("好  ").data⟩ (by decide) (by decide)

/-- The horizontal-rule line `---`. -/
def hr : List Char := ("---").data

/-- Python `answer.replace("\\n", "\n")`: each two-character escape sequence
backslash-n becomes a real newline (left-to-right, non-overlapping). -/
def processedAnswer : List Char → List Char
  | [] => []
  | '\\' :: 'n' :: rest => '\n' :: processedAnswer rest
  | c :: rest => c :: processedAnswer rest

/-- Title built by `generate_md_report`: company name (when truthy) followed
by the report label and `({year}Q{quarter})`. -/
def mkTitle (year quarter : Nat) (company_name : Option (List Char)) : List Char :=
  if company_name.getD [] == [] then
    ("财务分析报告 (").data ++ natChars year ++ ("Q").data ++
      natChars quarter ++ (")").data
  else
    company_name.getD [] ++ (" 财务分析报告 (").data ++ natChars year ++
      ("Q").data ++ natChars quarter ++ (")").data

/-- Second-level heading line `## {n}. {text}`. -/
def h2line (n : Nat) (text : List Char) : List Char :=
  '#' :: '#' :: ' ' :: (natChars n ++ '.' :: ' ' :: text)

/-- Third-level heading line `### {n}.{m} {text}`. -/
def h3line (n m : Nat) (text : List Char) : List Char :=
  '#' :: '#' :: '#' :: ' ' :: (natChars n ++ '.' :: (natChars m ++ ' ' :: text))

/-- The `for item in financial_items` loop of `generate_md_report`: emit one
`##`-numbered Q&A block per kept record, returning the emitted lines and the
final value of `section_number`. -/
def finBlocks (n : Nat) : List QARecord → List (List Char) × Nat
  | [] => ([], n)
  | item :: rest =>
    let question := trim item.question
    let answer := trim item.answer
    if question == [] || answer == [] then finBlocks n rest
    else
      let res := finBlocks (n + 1) rest
      (h2line n question :: [] :: processedAnswer answer :: [] :: hr :: [] :: res.1,
       res.2)

/-- The `for item in items` loop of a non-financial section: emit one
`###`-numbered Q&A block per kept record (subsection counter `m`). -/
def subBlocks (secNo m : Nat) : List QARecord → List (List Char)
  | [] => []
  | item :: rest =>
    let question := trim item.question
    let answer := trim item.answer
    if question == [] || answer == [] then subBlocks secNo m rest
    else
      h3line secNo m question :: [] :: processedAnswer answer :: [] :: hr :: [] ::
        subBlocks secNo (m + 1) rest

/-- The fixed `(section_key, section_title)` list of `generate_md_report`,
paired with the corresponding buckets. -/
def sectionsOf (cats : Categories) : List (List Char × List QARecord) :=
  [(("业务运营分析").data, cats.business),
   (("专项分析").data, cats.analysis),
   (("管理层分析").data, cats.management),
   (("公司治理与合规").data, cats.governance),
   (("其他信息").data, cats.other)]

def sectionTitles : List (List Char) :=
  [("业务运营分析").data, ("专项分析").data, ("管理层分析").data,
   ("公司治理与合规").data, ("其他信息").data]

/-- The `for section_key, section_title in sections` loop: a non-empty bucket
emits its `##` heading, a blank line and its subsection blocks and advances
the section counter; an empty bucket emits nothing. -/
def catPart (n : Nat) : List (List Char × List QARecord) → List (List Char)
  | [] => []
  | (title, items) :: rest =>
    if items == [] then catPart n rest
    else (h2line n title :: [] :: subBlocks n 1 items) ++ catPart (n + 1) rest

/-- The full `md_lines` list built by `generate_md_report`: title header,
financial blocks (with a trailing separator when the bucket is non-empty),
the five numbered sections, and the footer. -/
def md_lines (year quarter : Nat) (company_name : Option (List Char))
    (reports : List QARecord) : List (List Char) :=
  let cats := classify_content reports
  let fin := finBlocks 1 cats.financial
  (('#' :: ' ' :: mkTitle year quarter company_name) :: [[], hr, []]) ++
    (if cats.financial == [] then [] else fin.1 ++ [[], hr, []]) ++
    catPart fin.2 (sectionsOf cats) ++ [[], hr, []]

/-- Python `"\n".join(md_lines)`. -/
def joinNl (ls : List (List Char)) : List Char := List.intercalate ['\n'] ls

/-- `generate_md_report` of `tasks/generate_md_report`: the joined Markdown
content and the derived title. -/
def generate_md_report (year quarter : Nat) (company_name : Option (List Char))
    (reports : List QARecord) : List Char × List Char :=
  (joinNl (md_lines year quarter company_name reports),
   mkTitle year quarter company_name)

/-- Line starts with `## `. -/
def isH2Start (l : List Char) : Bool := (("## ").data).isPrefixOf l

/-- Line starts with `### `. -/
def isH3Start (l : List Char) : Bool := (("### ").data).isPrefixOf l

/-- Parse a leading decimal number followed by a dot. -/
def parseNumDot (rest : List Char) : Option Nat :=
  let ds := rest.takeWhile Char.isDigit
  if ds == [] then none
  else
    match rest.dropWhile Char.isDigit with
    | '.' :: _ => some (parseNat ds)
    | _ => none

/-- Parse a second-level heading line `## {n}.…`, returning its number. -/
def parseH2 (l : List Char) : Option Nat :=
  match l with
  | '#' :: '#' :: ' ' :: rest => parseNumDot rest
  | _ => none

/-- Parse a third-level heading line `### {n}.{m}…`, returning its pair. -/
def parseH3 (l : List Char) : Option (Nat × Nat) :=
  match l with
  | '#' :: '#' :: '#' :: ' ' :: rest =>
    let ds := rest.takeWhile Char.isDigit
    if ds == [] then none
    else
      match rest.dropWhile Char.isDigit with
      | '.' :: rest2 =>
        let ds2 := rest2.takeWhile Char.isDigit
        if ds2 == [] then none else some (parseNat ds, parseNat ds2)
      | _ => none
  | _ => none

/-- Sequence of second-level heading numbers of a line list. -/
def h2Numbers (lines : List (List Char)) : List Nat := lines.filterMap parseH2

/-- Sequence of third-level heading number pairs of a line list. -/
def h3Pairs (lines : List (List Char)) : List (Nat × Nat) := lines.filterMap parseH3

theorem chVal_digitCh (d : Nat) (h : d < 10) : chVal (digitCh d) = d := by
  interval_cases d <;> decide

theorem digitCh_isDigit (d : Nat) (h : d < 10) : (digitCh d).isDigit = true := by
  interval_cases d <;> decide

theorem natChars_ne_nil (n : Nat) : natChars n ≠ [] := by
  unfold natChars
  split
  · simp
  · simp [Nat.digits_ne_nil_iff_ne_zero, *]

theorem natChars_digits (n : Nat) : ∀ c ∈ natChars n, c.isDigit = true := by
  unfold natChars
  split
  · intro c hc; simp at hc; subst hc; decide
  · intro c hc
    simp only [List.mem_reverse, List.mem_map] at hc
    obtain ⟨d, hd, rfl⟩ := hc
    exact digitCh_isDigit d (Nat.digits_lt_base (by norm_num) hd)

theorem foldr_chVal (L : List Nat) (h : ∀ d ∈ L, d < 10) :
    L.foldr (fun d a => a * 10 + chVal (digitCh d)) 0 = Nat.ofDigits 10 L := by
  induction L with
  | nil => simp
  | cons d t ih =>
    rw [List.foldr_cons, ih (fun x hx => h x (List.mem_cons_of_mem d hx)),
      Nat.ofDigits_cons, chVal_digitCh d (h d (List.mem_cons_self d t))]
    ring

theorem parseNat_natChars (n : Nat) : parseNat (natChars n) = n := by
  unfold natChars parseNat
  split
  · subst_vars; decide
  · rw [List.foldl_reverse, List.foldr_map]
    have := foldr_chVal (Nat.digits 10 n)
      (fun d hd => Nat.digits_lt_base (by norm_num) hd)
    simp only at this ⊢
    rw [this, Nat.ofDigits_digits]

theorem takeWhile_middle (p : Char → Bool) (A : List Char) (c : Char) (B : List Char)
    (hA : ∀ a ∈ A, p a = true) (hc : p c = false) :
    (A ++ c :: B).takeWhile p = A ∧ (A ++ c :: B).dropWhile p = c :: B := by
  induction A with
  | nil => simp [List.takeWhile_cons, List.dropWhile_cons, hc]
  | cons a t ih =>
    have ha : p a = true := hA a (List.mem_cons_self a t)
    have iht := ih (fun x hx => hA x (List.mem_cons_of_mem a hx))
    simp [List.takeWhile_cons, List.dropWhile_cons, ha, iht.1, iht.2]

theorem parseNumDot_eq (n : Nat) (rest : List Char) :
    parseNumDot (natChars n ++ '.' :: rest) = some n := by
  have h := takeWhile_middle Char.isDigit (natChars n) '.' rest (natChars_digits n)
    (by decide)
  unfold parseNumDot
  rw [h.1, h.2]
  simp [natChars_ne_nil n, parseNat_natChars n]

theorem parseH2_h2line (n : Nat) (text : List Char) :
    parseH2 (h2line n text) = some n := by
  simp only [h2line, parseH2]
  exact parseNumDot_eq n (' ' :: text)

theorem parseH3_h3line (n m : Nat) (text : List Char) :
    parseH3 (h3line n m text) = some (n, m) := by
  have h1 := takeWhile_middle Char.isDigit (natChars n) '.'
    (natChars m ++ ' ' :: text) (natChars_digits n) (by decide)
  have h2 := takeWhile_middle Char.isDigit (natChars m) ' ' text
    (natChars_digits m) (by decide)
  simp only [h3line, parseH3, List.append_assoc, List.cons_append, List.nil_append] at *
  rw [h1.1, h1.2]
  simp [h2.1, h2.2, natChars_ne_nil, parseNat_natChars]

theorem parseH2_h3line (n m : Nat) (text : List Char) :
    parseH2 (h3line n m text) = none := rfl

theorem parseH3_h2line (n : Nat) (text : List Char) :
    parseH3 (h2line n text) = none := rfl

theorem parseH2_title (t : List Char) : parseH2 ('#' :: ' ' :: t) = none := rfl

theorem parseH3_title (t : List Char) : parseH3 ('#' :: ' ' :: t) = none := rfl

theorem parseH2_of_not_h2 (l : List Char) (h : isH2Start l = false) :
    parseH2 l = none := by
  unfold parseH2
  split
  · rename_i rest heq
    simp [isH2Start, List.isPrefixOf] at h
  · rfl

theorem parseH3_of_not_h3 (l : List Char) (h : isH3Start l = false) :
    parseH3 l = none := by
  unfold parseH3
  split
  · rename_i rest heq
    simp [isH3Start, List.isPrefixOf] at h
  · rfl

theorem parseH2_nil : parseH2 [] = none := rfl

theorem parseH2_hr : parseH2 hr = none := rfl

theorem parseH3_nil : parseH3 [] = none := rfl

theorem parseH3_hr : parseH3 hr = none := rfl

theorem keptRecord_cond (r : QARecord) (hk : keptRecord r = true) :
    (trim r.question == [] || trim r.answer == []) = false := by
  unfold keptRecord at hk
  cases h : (trim r.question == [] || trim r.answer == [])
  · rfl
  · rw [h] at hk; cases hk

theorem finBlocks_spec (items : List QARecord) (n : Nat)
    (hkept : ∀ r ∈ items, keptRecord r = true)
    (hans : ∀ r ∈ items, isH2Start (processedAnswer (trim r.answer)) = false ∧
      isH3Start (processedAnswer (trim r.answer)) = false) :
    h2Numbers (finBlocks n items).1 = List.range' n items.length ∧
    h3Pairs (finBlocks n items).1 = [] ∧
    (finBlocks n items).2 = n + items.length := by
  induction items generalizing n with
  | nil => simp [finBlocks, h2Numbers, h3Pairs]
  | cons item rest ih =>
    have hcond := keptRecord_cond item (hkept item (List.mem_cons_self _ _))
    have hpa := hans item (List.mem_cons_self _ _)
    have ihr := ih (n + 1) (fun r h => hkept r (List.mem_cons_of_mem _ h))
      (fun r h => hans r (List.mem_cons_of_mem _ h))
    simp only [finBlocks, hcond, Bool.false_eq_true, if_false, h2Numbers, h3Pairs,
      List.filterMap_cons, parseH2_h2line, parseH2_nil, parseH2_hr,
      parseH2_of_not_h2 _ hpa.1, parseH3_h2line, parseH3_nil, parseH3_hr,
      parseH3_of_not_h3 _ hpa.2, List.length_cons] at ihr ⊢
    rw [ihr.1, ihr.2.1, List.range'_succ]
    refine ⟨rfl, rfl, ?_⟩
    rw [ihr.2.2]; omega

theorem subBlocks_spec (items : List QARecord) (secNo m : Nat)
    (hkept : ∀ r ∈ items, keptRecord r = true)
    (hans : ∀ r ∈ items, isH2Start (processedAnswer (trim r.answer)) = false ∧
      isH3Start (processedAnswer (trim r.answer)) = false) :
    h2Numbers (subBlocks secNo m items) = [] ∧
    h3Pairs (subBlocks secNo m items) =
      (List.range' m items.length).map (fun k => (secNo, k)) := by
  induction items generalizing m with
  | nil => simp [subBlocks, h2Numbers, h3Pairs]
  | cons item rest ih =>
    have hcond := keptRecord_cond item (hkept item (List.mem_cons_self _ _))
    have hpa := hans item (List.mem_cons_self _ _)
    have ihr := ih (m + 1) (fun r h => hkept r (List.mem_cons_of_mem _ h))
      (fun r h => hans r (List.mem_cons_of_mem _ h))
    simp only [subBlocks, hcond, Bool.false_eq_true, if_false, h2Numbers, h3Pairs,
      List.filterMap_cons, parseH3_h3line, parseH2_h3line, parseH2_nil, parseH2_hr,
      parseH2_of_not_h2 _ hpa.1, parseH3_nil, parseH3_hr,
      parseH3_of_not_h3 _ hpa.2, List.length_cons] at ihr ⊢
    rw [ihr.1, ihr.2, List.range'_succ]
    exact ⟨rfl, rfl⟩

/-- The buckets of the five non-financial sections that are non-empty, in
section order. -/
def nonEmptySections (secs : List (List Char × List QARecord)) :
    List (List QARecord) :=
  (secs.map (fun s => s.2)).filter (fun b => !(b == []))

/-- The `(section, subsection)` number pairs expected for the non-empty
buckets `bs` when the section counter starts at `n`: the i-th bucket gets
section number `n + i` and subsection numbers `1..length`. -/
def expectedH3 (n : Nat) (bs : List (List QARecord)) : List (Nat × Nat) :=
  (List.enumFrom n bs).flatMap
    (fun nb => (List.range' 1 nb.2.length).map (fun m => (nb.1, m)))

theorem catPart_spec (secs : List (List Char × List QARecord)) (n : Nat)
    (hall : ∀ p ∈ secs, ∀ r ∈ p.2, keptRecord r = true ∧
      isH2Start (processedAnswer (trim r.answer)) = false ∧
      isH3Start (processedAnswer (trim r.answer)) = false) :
    h2Numbers (catPart n secs) = List.range' n (nonEmptySections secs).length ∧
    h3Pairs (catPart n secs) = expectedH3 n (nonEmptySections secs) := by
  induction secs generalizing n with
  | nil => simp [catPart, h2Numbers, h3Pairs, nonEmptySections, expectedH3]
  | cons p rest ih =>
    obtain ⟨title, items⟩ := p
    have hitems := hall (title, items) (List.mem_cons_self _ _)
    have ihr := ih n (fun q hq r hrm => hall q (List.mem_cons_of_mem _ hq) r hrm)
    have ihr1 := ih (n + 1) (fun q hq r hrm => hall q (List.mem_cons_of_mem _ hq) r hrm)
    by_cases hempty : items = []
    · subst hempty
      simpa [catPart, nonEmptySections] using ihr
    · have hbeq : (items == []) = false := by simp [hempty]
      have hsub := subBlocks_spec items n 1
        (fun r h => (hitems r h).1) (fun r h => ⟨(hitems r h).2.1, (hitems r h).2.2⟩)
      simp only [catPart, hbeq, Bool.false_eq_true, if_false, h2Numbers, h3Pairs,
        List.filterMap_append, List.filterMap_cons, parseH2_h2line, parseH3_h2line,
        parseH2_nil, parseH3_nil, nonEmptySections, List.map_cons, List.filter_cons,
        Bool.not_false, if_true, List.length_cons] at hsub ihr1 ⊢
      rw [hsub.1, hsub.2, ihr1.1, ihr1.2]
      constructor
      · rw [List.range'_succ]; rfl
      · simp [expectedH3, List.enumFrom_cons]

theorem bucket_facts (reports : List QARecord) (c : Category) :
    ∀ r ∈ bucketOf (classify_content reports) c, r ∈ reports ∧ keptRecord r = true := by
  intro r hm
  have h := (mem_bucket_iff reports r c).mp hm
  refine ⟨h.1, ?_⟩
  cases hk : keptRecord r
  · rw [(classifyRecord_eq_none_iff r).mpr hk] at h
    cases h.2
  · rfl

theorem h2Numbers_append (a b : List (List Char)) :
    h2Numbers (a ++ b) = h2Numbers a ++ h2Numbers b := List.filterMap_append a b parseH2

theorem h3Pairs_append (a b : List (List Char)) :
    h3Pairs (a ++ b) = h3Pairs a ++ h3Pairs b := List.filterMap_append a b parseH3

theorem h2Numbers_header (t : List Char) :
    h2Numbers (('#' :: ' ' :: t) :: [[], hr, []]) = [] := by
  simp [h2Numbers, List.filterMap_cons, parseH2_title, parseH2_nil, parseH2_hr]

theorem h3Pairs_header (t : List Char) :
    h3Pairs (('#' :: ' ' :: t) :: [[], hr, []]) = [] := by
  simp [h3Pairs, List.filterMap_cons, parseH3_title, parseH3_nil, parseH3_hr]

theorem h2Numbers_sep : h2Numbers [[], hr, []] = [] := by
  simp [h2Numbers, List.filterMap_cons, parseH2_nil, parseH2_hr]

theorem h3Pairs_sep : h3Pairs [[], hr, []] = [] := by
  simp [h3Pairs, List.filterMap_cons, parseH3_nil, parseH3_hr]

/-- Claim C4: in every document built by the assembler, the second-level
heading numbers are exactly `1, 2, …, k + p` in order, where `k` is the
number of financial Q&A blocks and `p` the number of non-empty non-financial
categories (an empty category emits no heading and consumes no number), and
the third-level heading numbers are `N.1, N.2, …` restarting at 1 inside
each emitted section `N` (sections numbered `k+1, …, k+p` in the fixed
category order).  The hypothesis excludes answers whose processed text would
itself be a `##`/`###` heading line, which would confound heading detection
in content. -/
theorem section_numbering (year quarter : Nat) (company_name : Option (List Char))
    (reports : List QARecord)
    (hans : ∀ r ∈ reports, isH2Start (processedAnswer (trim r.answer)) = false ∧
      isH3Start (processedAnswer (trim r.answer)) = false) :
    h2Numbers (md_lines year quarter company_name reports) =
      List.range' 1 ((classify_content reports).financial.length +
        (nonEmptySections (sectionsOf (classify_content reports))).length) ∧
    h3Pairs (md_lines year quarter company_name reports) =
      expectedH3 ((classify_content reports).financial.length + 1)
        (nonEmptySections (sectionsOf (classify_content reports))) := by
  have hfin : ∀ r ∈ (classify_content reports).financial,
      r ∈ reports ∧ keptRecord r = true :=
    fun r hm => bucket_facts reports .financial r hm
  have hsecs : ∀ p ∈ sectionsOf (classify_content reports), ∀ r ∈ p.2,
      keptRecord r = true ∧ isH2Start (processedAnswer (trim r.answer)) = false ∧
      isH3Start (processedAnswer (trim r.answer)) = false := by
    intro p hp r hrm
    have hrr : r ∈ reports ∧ keptRecord r = true := by
      simp only [sectionsOf, List.mem_cons, List.not_mem_nil, or_false] at hp
      rcases hp with h | h | h | h | h <;> subst h
      · exact bucket_facts reports .business r hrm
      · exact bucket_facts reports .analysis r hrm
      · exact bucket_facts reports .management r hrm
      · exact bucket_facts reports .governance r hrm
      · exact bucket_facts reports .other r hrm
    exact ⟨hrr.2, (hans r hrr.1).1, (hans r hrr.1).2⟩
  have hFB := finBlocks_spec (classify_content reports).financial 1
    (fun r h => (hfin r h).2) (fun r h => hans r (hfin r h).1)
  simp only [md_lines]
  by_cases hem : (classify_content reports).financial = []
  · have hbeq : ((classify_content reports).financial == []) = true := by simp [hem]
    have hn : (finBlocks 1 (classify_content reports).financial).2 = 1 := by
      rw [hem]; rfl
    have hCP := catPart_spec (sectionsOf (classify_content reports)) 1 hsecs
    rw [hbeq, hn]
    simp only [if_true, List.nil_append, h2Numbers_append, h3Pairs_append,
      h2Numbers_header, h3Pairs_header, h2Numbers_sep, h3Pairs_sep, hCP.1, hCP.2,
      List.nil_append, List.append_nil, hem, List.length_nil, Nat.zero_add]
    exact ⟨trivial, trivial⟩
  · have hbeq : ((classify_content reports).financial == []) = false := by simp [hem]
    have hCP := catPart_spec (sectionsOf (classify_content reports))
      ((finBlocks 1 (classify_content reports).financial).2) hsecs
    rw [hbeq]
    rw [hFB.2.2] at hCP
    simp only [Bool.false_eq_true, if_false, h2Numbers_append, h3Pairs_append,
      h2Numbers_header, h3Pairs_header, h2Numbers_sep, h3Pairs_sep, hFB.2.2, hCP.1,
      hCP.2, hFB.1, hFB.2.1, List.nil_append, List.append_nil]
    constructor
    · have := List.range'_append 1 (classify_content reports).financial.length
        (nonEmptySections (sectionsOf (classify_content reports))).length 1
      simp only [Nat.one_mul] at this
      rw [this]
      congr 1
      omega
    · congr 1
      omega

/-- A Q&A-block heading line: a `###` heading, or a `##` heading that is not
one of the five fixed category section headings (those end in `. ` followed
by a category title). -/
def isItemHead (l : List Char) : Bool :=
  isH3Start l ||
    (isH2Start l && !(sectionTitles.any (fun t => List.isSuffixOf ('.' :: ' ' :: t) l)))

/-- Every Q&A-block heading line of `L` opens a full six-line block
`heading, blank, answer, blank, horizontal rule, blank` inside `L`: the
blank line and the rule at offsets 3 and 4 follow the block's content. -/
def BlockSep (L : List (List Char)) : Prop :=
  ∀ i, isItemHead (L.getD i []) = true →
    ∃ pa rest, L.drop i = L.getD i [] :: [] :: pa :: [] :: hr :: [] :: rest

/-- `L` ends with a horizontal rule followed by a blank line. -/
def EndsHrBlank (L : List (List Char)) : Prop := ∃ P, L = P ++ [hr, []]

/-- Every `##` heading of `L` at a positive position is immediately preceded
by a horizontal rule and then a blank line. -/
def H2Pre (L : List (List Char)) : Prop :=
  ∀ i, 0 < i → isH2Start (L.getD i []) = true → ∃ P, L.take i = P ++ [hr, []]

/-- No line of `L` is a `##` heading. -/
def NoH2 (L : List (List Char)) : Prop := ∀ l ∈ L, isH2Start l = false

theorem BlockSep_append (L1 L2 : List (List Char))
    (h1 : BlockSep L1) (h2 : BlockSep L2) : BlockSep (L1 ++ L2) := by
  intro i hi
  by_cases hlt : i < L1.length
  · rw [List.getD_append _ _ _ _ hlt] at hi ⊢
    obtain ⟨pa, rest, hdrop⟩ := h1 i hi
    refine ⟨pa, rest ++ L2, ?_⟩
    rw [List.drop_append_of_le_length (by omega), hdrop]
    simp
  · push_neg at hlt
    rw [List.getD_append_right _ _ _ _ hlt] at hi ⊢
    obtain ⟨pa, rest, hdrop⟩ := h2 _ hi
    refine ⟨pa, rest, ?_⟩
    obtain ⟨k, rfl⟩ : ∃ k, i = L1.length + k := ⟨i - L1.length, by omega⟩
    simp only [Nat.add_sub_cancel_left] at hdrop ⊢
    rw [List.drop_append]
    exact hdrop

theorem EndsHrBlank_append (L1 L2 : List (List Char)) (h : EndsHrBlank L2) :
    EndsHrBlank (L1 ++ L2) := by
  obtain ⟨P, rfl⟩ := h
  exact ⟨L1 ++ P, by simp⟩

theorem H2Pre_append (L1 L2 : List (List Char)) (h1 : H2Pre L1) (h2 : H2Pre L2)
    (hend : EndsHrBlank L1) : H2Pre (L1 ++ L2) := by
  intro i hpos hi
  by_cases hlt : i < L1.length
  · rw [List.getD_append _ _ _ _ hlt] at hi
    obtain ⟨P, htake⟩ := h1 i hpos hi
    exact ⟨P, by rw [List.take_append_of_le_length (by omega), htake]⟩
  · push_neg at hlt
    rw [List.getD_append_right _ _ _ _ hlt] at hi
    rcases Nat.eq_or_lt_of_le hlt with heq | hgt
    · obtain ⟨P, rfl⟩ := hend
      refine ⟨P, ?_⟩
      rw [← heq, List.take_left]
    · obtain ⟨P, htake⟩ := h2 (i - L1.length) (by omega) hi
      refine ⟨L1 ++ P, ?_⟩
      obtain ⟨k, rfl⟩ : ∃ k, i = L1.length + k := ⟨i - L1.length, by omega⟩
      rw [List.take_append]
      rw [Nat.add_sub_cancel_left] at htake
      rw [htake, List.append_assoc]

theorem H2Pre_of_NoH2 (L : List (List Char)) (h : NoH2 L) : H2Pre L := by
  intro i hpos hi
  by_cases hlen : i < L.length
  · rw [List.getD_eq_getElem L [] hlen] at hi
    have := h (L[i]) (List.getElem_mem hlen)
    rw [this] at hi
    cases hi
  · rw [List.getD_eq_default _ _ (by omega)] at hi
    cases hi

theorem isItemHead_false_of (l : List Char) (h2 : isH2Start l = false)
    (h3 : isH3Start l = false) : isItemHead l = false := by
  simp [isItemHead, h2, h3]

theorem isH2Start_h3line (n m : Nat) (t : List Char) :
    isH2Start (h3line n m t) = false := rfl

theorem isH2Start_h2line (n : Nat) (t : List Char) :
    isH2Start (h2line n t) = true := by
  simp [isH2Start, h2line, List.isPrefixOf]

theorem isItemHead_catHead (n : Nat) (t : List Char) (ht : t ∈ sectionTitles) :
    isItemHead (h2line n t) = false := by
  have hsuffix : List.isSuffixOf ('.' :: ' ' :: t) (h2line n t) = true := by
    rw [List.isSuffixOf_iff_suffix]
    refine ⟨'#' :: '#' :: ' ' :: natChars n, ?_⟩
    simp [h2line]
  have hany : sectionTitles.any
      (fun s => List.isSuffixOf ('.' :: ' ' :: s) (h2line n t)) = true :=
    List.any_eq_true.mpr ⟨t, ht, hsuffix⟩
  have h3 : isH3Start (h2line n t) = false := by
    simp [isH3Start, h2line, List.isPrefixOf]
  simp [isItemHead, hany, h3]

theorem BlockSep_nil : BlockSep [] := by
  intro i hi
  rw [List.getD_eq_default _ _ (by simp)] at hi
  cases hi

theorem BlockSep_of_noHeads (L : List (List Char))
    (h : ∀ l ∈ L, isItemHead l = false) : BlockSep L := by
  intro i hi
  by_cases hlen : i < L.length
  · rw [List.getD_eq_getElem L [] hlen] at hi
    rw [h (L[i]) (List.getElem_mem hlen)] at hi
    cases hi
  · rw [List.getD_eq_default _ _ (by omega)] at hi
    cases hi

theorem BlockSep_cons2 (a b : List Char) (L : List (List Char))
    (ha : isItemHead a = false) (hb : isItemHead b = false) (hL : BlockSep L) :
    BlockSep (a :: b :: L) := by
  intro i hi
  obtain _ | _ | k := i
  · rw [List.getD_cons_zero, ha] at hi; cases hi
  · rw [List.getD_cons_succ, List.getD_cons_zero, hb] at hi; cases hi
  · simp only [List.getD_cons_succ] at hi ⊢
    obtain ⟨pa, rest, hdrop⟩ := hL k hi
    exact ⟨pa, rest, by simpa [List.drop_succ_cons] using hdrop⟩

theorem BlockSep_block (h pa : List Char) (rest : List (List Char))
    (hpa : isItemHead pa = false) (hrest : BlockSep rest) :
    BlockSep (h :: [] :: pa :: [] :: hr :: [] :: rest) := by
  intro i hi
  obtain _ | _ | _ | _ | _ | _ | k := i
  · exact ⟨pa, rest, rfl⟩
  · rw [show ((h :: [] :: pa :: [] :: hr :: [] :: rest).getD 1 []) = [] from rfl] at hi
    exact Bool.noConfusion hi
  · rw [show ((h :: [] :: pa :: [] :: hr :: [] :: rest).getD 2 []) = pa from rfl,
      hpa] at hi
    cases hi
  · rw [show ((h :: [] :: pa :: [] :: hr :: [] :: rest).getD 3 []) = [] from rfl] at hi
    exact Bool.noConfusion hi
  · rw [show ((h :: [] :: pa :: [] :: hr :: [] :: rest).getD 4 []) = hr from rfl,
      show isItemHead hr = false from by decide] at hi
    cases hi
  · rw [show ((h :: [] :: pa :: [] :: hr :: [] :: rest).getD 5 []) = [] from rfl] at hi
    exact Bool.noConfusion hi
  · simp only [List.getD_cons_succ] at hi ⊢
    obtain ⟨pa2, rest2, hdrop⟩ := hrest k hi
    exact ⟨pa2, rest2, by simpa [List.drop_succ_cons] using hdrop⟩

theorem EndsHrBlank_cons (a : List Char) (L : List (List Char))
    (h : EndsHrBlank L) : EndsHrBlank (a :: L) := by
  obtain ⟨P, rfl⟩ := h
  exact ⟨a :: P, rfl⟩

theorem H2Pre_nil : H2Pre [] := by
  intro i hpos hi
  rw [List.getD_eq_default _ _ (by simp)] at hi
  cases hi

theorem H2Pre_append_NoH2 (L1 L2 : List (List Char)) (h1 : H2Pre L1)
    (h2 : NoH2 L2) : H2Pre (L1 ++ L2) := by
  intro i hpos hi
  by_cases hlt : i < L1.length
  · rw [List.getD_append _ _ _ _ hlt] at hi
    obtain ⟨P, htake⟩ := h1 i hpos hi
    exact ⟨P, by rw [List.take_append_of_le_length (by omega), htake]⟩
  · push_neg at hlt
    rw [List.getD_append_right _ _ _ _ hlt] at hi
    by_cases hlen : i - L1.length < L2.length
    · rw [List.getD_eq_getElem L2 [] hlen] at hi
      rw [h2 (L2[i - L1.length]) (List.getElem_mem hlen)] at hi
      cases hi
    · rw [List.getD_eq_default _ _ (by omega)] at hi
      cases hi

theorem H2Pre_cons_NoH2 (a : List Char) (L : List (List Char)) (h : NoH2 L) :
    H2Pre (a :: L) := by
  intro i hpos hi
  obtain _ | k := i
  · omega
  · rw [List.getD_cons_succ] at hi
    by_cases hlen : k < L.length
    · rw [List.getD_eq_getElem L [] hlen] at hi
      rw [h (L[k]) (List.getElem_mem hlen)] at hi
      cases hi
    · rw [List.getD_eq_default _ _ (by omega)] at hi
      cases hi

theorem isH2Start_title (t : List Char) : isH2Start ('#' :: ' ' :: t) = false := by
  simp [isH2Start, List.isPrefixOf]

theorem isH3Start_title (t : List Char) : isH3Start ('#' :: ' ' :: t) = false := by
  simp [isH3Start, List.isPrefixOf]

theorem isH3Start_h2line (n : Nat) (t : List Char) :
    isH3Start (h2line n t) = false := by
  simp [isH3Start, h2line, List.isPrefixOf]

theorem noH2_subBlocks (secNo m : Nat) (items : List QARecord)
    (hans : ∀ r ∈ items, isH2Start (processedAnswer (trim r.answer)) = false) :
    NoH2 (subBlocks secNo m items) := by
  induction items generalizing m with
  | nil => intro l hl; simp [subBlocks] at hl
  | cons item rest ih =>
    intro l hl
    simp only [subBlocks] at hl
    split at hl
    · exact ih m (fun r h => hans r (List.mem_cons_of_mem _ h)) l hl
    · simp only [List.mem_cons] at hl
      rcases hl with rfl | rfl | rfl | rfl | rfl | rfl | hl
      · exact isH2Start_h3line _ _ _
      · decide
      · exact hans item (List.mem_cons_self _ _)
      · decide
      · decide
      · decide
      · exact ih (m + 1) (fun r h => hans r (List.mem_cons_of_mem _ h)) l hl

theorem blockSep_subBlocks (secNo m : Nat) (items : List QARecord)
    (hans : ∀ r ∈ items, isH2Start (processedAnswer (trim r.answer)) = false ∧
      isH3Start (processedAnswer (trim r.answer)) = false) :
    BlockSep (subBlocks secNo m items) := by
  induction items generalizing m with
  | nil => exact BlockSep_nil
  | cons item rest ih =>
    simp only [subBlocks]
    split
    · exact ih m (fun r h => hans r (List.mem_cons_of_mem _ h))
    · exact BlockSep_block _ _ _
        (isItemHead_false_of _ (hans item (List.mem_cons_self _ _)).1
          (hans item (List.mem_cons_self _ _)).2)
        (ih (m + 1) (fun r h => hans r (List.mem_cons_of_mem _ h)))

theorem blockSep_finBlocks (n : Nat) (items : List QARecord)
    (hans : ∀ r ∈ items, isH2Start (processedAnswer (trim r.answer)) = false ∧
      isH3Start (processedAnswer (trim r.answer)) = false) :
    BlockSep (finBlocks n items).1 := by
  induction items generalizing n with
  | nil => exact BlockSep_nil
  | cons item rest ih =>
    simp only [finBlocks]
    split
    · exact ih n (fun r h => hans r (List.mem_cons_of_mem _ h))
    · exact BlockSep_block _ _ _
        (isItemHead_false_of _ (hans item (List.mem_cons_self _ _)).1
          (hans item (List.mem_cons_self _ _)).2)
        (ih (n + 1) (fun r h => hans r (List.mem_cons_of_mem _ h)))

theorem h2Pre_finBlocks (n : Nat) (items : List QARecord)
    (hans : ∀ r ∈ items, isH2Start (processedAnswer (trim r.answer)) = false) :
    H2Pre (finBlocks n items).1 := by
  induction items generalizing n with
  | nil => exact H2Pre_nil
  | cons item rest ih =>
    simp only [finBlocks]
    split
    · exact ih n (fun r h => hans r (List.mem_cons_of_mem _ h))
    · show H2Pre ([h2line n (trim item.question), [],
        processedAnswer (trim item.answer), [], hr, []] ++ (finBlocks (n + 1) rest).1)
      refine H2Pre_append _ _ ?_ (ih (n + 1) (fun r h => hans r (List.mem_cons_of_mem _ h))) ?_
      · refine H2Pre_cons_NoH2 _ _ ?_
        intro l hl
        simp only [List.mem_cons, List.not_mem_nil, or_false] at hl
        rcases hl with rfl | rfl | rfl | rfl | rfl
        · decide
        · exact hans item (List.mem_cons_self _ _)
        · decide
        · decide
        · decide
      · exact ⟨[h2line n (trim item.question), [],
          processedAnswer (trim item.answer), []], rfl⟩

theorem endsHr_subBlocks (secNo m : Nat) (items : List QARecord) (hne : items ≠ [])
    (hkept : ∀ r ∈ items, keptRecord r = true) :
    EndsHrBlank (subBlocks secNo m items) := by
  induction items generalizing m with
  | nil => cases hne rfl
  | cons item rest ih =>
    have hcond := keptRecord_cond item (hkept item (List.mem_cons_self _ _))
    simp only [subBlocks, hcond, Bool.false_eq_true, if_false]
    rcases rest with _ | ⟨r2, rest2⟩
    · exact ⟨[h3line secNo m (trim item.question), [],
        processedAnswer (trim item.answer), []], rfl⟩
    · have h := ih (m + 1) (by simp) (fun r h => hkept r (List.mem_cons_of_mem _ h))
      exact EndsHrBlank_cons _ _ (EndsHrBlank_cons _ _ (EndsHrBlank_cons _ _
        (EndsHrBlank_cons _ _ (EndsHrBlank_cons _ _ (EndsHrBlank_cons _ _ h)))))

theorem endsHr_finBlocks (n : Nat) (items : List QARecord) (hne : items ≠ [])
    (hkept : ∀ r ∈ items, keptRecord r = true) :
    EndsHrBlank (finBlocks n items).1 := by
  induction items generalizing n with
  | nil => cases hne rfl
  | cons item rest ih =>
    have hcond := keptRecord_cond item (hkept item (List.mem_cons_self _ _))
    simp only [finBlocks, hcond, Bool.false_eq_true, if_false]
    rcases rest with _ | ⟨r2, rest2⟩
    · exact ⟨[h2line n (trim item.question), [],
        processedAnswer (trim item.answer), []], rfl⟩
    · have h := ih (n + 1) (by simp) (fun r h => hkept r (List.mem_cons_of_mem _ h))
      exact EndsHrBlank_cons _ _ (EndsHrBlank_cons _ _ (EndsHrBlank_cons _ _
        (EndsHrBlank_cons _ _ (EndsHrBlank_cons _ _ (EndsHrBlank_cons _ _ h)))))

theorem blockSep_catPart (n : Nat) (secs : List (List Char × List QARecord))
    (hall : ∀ p ∈ secs, (∀ r ∈ p.2, keptRecord r = true ∧
        isH2Start (processedAnswer (trim r.answer)) = false ∧
        isH3Start (processedAnswer (trim r.answer)) = false) ∧
      p.1 ∈ sectionTitles) :
    BlockSep (catPart n secs) := by
  induction secs generalizing n with
  | nil => exact BlockSep_nil
  | cons p rest ih =>
    obtain ⟨title, items⟩ := p
    have hp := hall (title, items) (List.mem_cons_self _ _)
    have ihr := fun k => ih k (fun q hq => hall q (List.mem_cons_of_mem _ hq))
    by_cases hempty : items = []
    · have hbeq : (items == []) = true := by simp [hempty]
      simp only [catPart, hbeq, if_true]
      exact ihr n
    · have hbeq : (items == []) = false := by simp [hempty]
      simp only [catPart, hbeq, Bool.false_eq_true, if_false]
      refine BlockSep_append _ _ ?_ (ihr (n + 1))
      exact BlockSep_cons2 _ _ _ (isItemHead_catHead n title hp.2) (by decide)
        (blockSep_subBlocks n 1 items
          (fun r h => ⟨(hp.1 r h).2.1, (hp.1 r h).2.2⟩))

theorem h2Pre_catPart (n : Nat) (secs : List (List Char × List QARecord))
    (hall : ∀ p ∈ secs, ∀ r ∈ p.2, keptRecord r = true ∧
      isH2Start (processedAnswer (trim r.answer)) = false) :
    H2Pre (catPart n secs) := by
  induction secs generalizing n with
  | nil => exact H2Pre_nil
  | cons p rest ih =>
    obtain ⟨title, items⟩ := p
    have hp := hall (title, items) (List.mem_cons_self _ _)
    have ihr := fun k => ih k (fun q hq => hall q (List.mem_cons_of_mem _ hq))
    by_cases hempty : items = []
    · have hbeq : (items == []) = true := by simp [hempty]
      simp only [catPart, hbeq, if_true]
      exact ihr n
    · have hbeq : (items == []) = false := by simp [hempty]
      simp only [catPart, hbeq, Bool.false_eq_true, if_false]
      refine H2Pre_append _ _ ?_ (ihr (n + 1)) ?_
      · refine H2Pre_cons_NoH2 _ _ ?_
        intro l hl
        simp only [List.mem_cons] at hl
        rcases hl with rfl | hl
        · decide
        · exact noH2_subBlocks n 1 items (fun r h => (hp r h).2) l hl
      · exact EndsHrBlank_cons _ _ (EndsHrBlank_cons _ _
          (endsHr_subBlocks n 1 items hempty (fun r h => (hp r h).1)))

theorem endsHr_catPart (n : Nat) (secs : List (List Char × List QARecord))
    (hall : ∀ p ∈ secs, ∀ r ∈ p.2, keptRecord r = true) :
    catPart n secs = [] ∨ EndsHrBlank (catPart n secs) := by
  induction secs generalizing n with
  | nil => exact Or.inl rfl
  | cons p rest ih =>
    obtain ⟨title, items⟩ := p
    have hp := hall (title, items) (List.mem_cons_self _ _)
    have ihr := fun k => ih k (fun q hq => hall q (List.mem_cons_of_mem _ hq))
    by_cases hempty : items = []
    · have hbeq : (items == []) = true := by simp [hempty]
      simp only [catPart, hbeq, if_true]
      exact ihr n
    · have hbeq : (items == []) = false := by simp [hempty]
      simp only [catPart, hbeq, Bool.false_eq_true, if_false]
      right
      rcases ihr (n + 1) with hnil | hends
      · rw [hnil, List.append_nil]
        exact EndsHrBlank_cons _ _ (EndsHrBlank_cons _ _
          (endsHr_subBlocks n 1 items hempty hp))
      · exact EndsHrBlank_append _ _ hends

theorem noH2_sep : NoH2 [[], hr, []] := by
  intro l hl
  simp only [List.mem_cons, List.not_mem_nil, or_false] at hl
  rcases hl with rfl | rfl | rfl
  · decide
  · decide
  · decide

theorem noHeads_sep : ∀ l ∈ [([] : List Char), hr, []], isItemHead l = false := by
  intro l hl
  simp only [List.mem_cons, List.not_mem_nil, or_false] at hl
  rcases hl with rfl | rfl | rfl
  · decide
  · decide
  · decide

/-- Claim C5: in every document built by the assembler, (a) every Q&A-block
heading opens a six-line block whose content is followed by a blank line and
a `---` horizontal rule; (b) the document's first line is not a `##` heading
and every `##` heading (each major section, and each financial Q&A block) is
immediately preceded by a horizontal rule and then a blank line — i.e. every
major section is followed by a blank line and a rule before the next section
or the end of the document; (c) the document itself ends with a horizontal
rule followed by a blank line. -/
theorem block_and_section_separators (year quarter : Nat)
    (company_name : Option (List Char)) (reports : List QARecord)
    (hans : ∀ r ∈ reports, isH2Start (processedAnswer (trim r.answer)) = false ∧
      isH3Start (processedAnswer (trim r.answer)) = false) :
    BlockSep (md_lines year quarter company_name reports) ∧
    isH2Start ((md_lines year quarter company_name reports).getD 0 []) = false ∧
    H2Pre (md_lines year quarter company_name reports) ∧
    EndsHrBlank (md_lines year quarter company_name reports) := by
  have hfin : ∀ r ∈ (classify_content reports).financial,
      r ∈ reports ∧ keptRecord r = true :=
    fun r hm => bucket_facts reports .financial r hm
  have hfinans : ∀ r ∈ (classify_content reports).financial,
      isH2Start (processedAnswer (trim r.answer)) = false ∧
      isH3Start (processedAnswer (trim r.answer)) = false :=
    fun r hm => hans r (hfin r hm).1
  have hsec1 : ∀ p ∈ sectionsOf (classify_content reports),
      (∀ r ∈ p.2, keptRecord r = true ∧
        isH2Start (processedAnswer (trim r.answer)) = false ∧
        isH3Start (processedAnswer (trim r.answer)) = false) ∧
      p.1 ∈ sectionTitles := by
    intro p hp
    constructor
    · intro r hrm
      have hrr : r ∈ reports ∧ keptRecord r = true := by
        simp only [sectionsOf, List.mem_cons, List.not_mem_nil, or_false] at hp
        rcases hp with h | h | h | h | h <;> subst h
        · exact bucket_facts reports .business r hrm
        · exact bucket_facts reports .analysis r hrm
        · exact bucket_facts reports .management r hrm
        · exact bucket_facts reports .governance r hrm
        · exact bucket_facts reports .other r hrm
      exact ⟨hrr.2, (hans r hrr.1).1, (hans r hrr.1).2⟩
    · simp only [sectionsOf, List.mem_cons, List.not_mem_nil, or_false] at hp
      rcases hp with h | h | h | h | h <;> subst h
      · exact (by decide : ("业务运营分析").data ∈ sectionTitles)
      · exact (by decide : ("专项分析").data ∈ sectionTitles)
      · exact (by decide : ("管理层分析").data ∈ sectionTitles)
      · exact (by decide : ("公司治理与合规").data ∈ sectionTitles)
      · exact (by decide : ("其他信息").data ∈ sectionTitles)
  have hheader : ∀ l ∈ [('#' :: ' ' :: mkTitle year quarter company_name),
      ([] : List Char), hr, []], isItemHead l = false := by
    intro l hl
    simp only [List.mem_cons, List.not_mem_nil, or_false] at hl
    rcases hl with rfl | rfl | rfl | rfl
    · exact isItemHead_false_of _ (isH2Start_title _) (isH3Start_title _)
    · decide
    · decide
    · decide
  have hheaderNoH2 : NoH2 [('#' :: ' ' :: mkTitle year quarter company_name),
      ([] : List Char), hr, []] := by
    intro l hl
    simp only [List.mem_cons, List.not_mem_nil, or_false] at hl
    rcases hl with rfl | rfl | rfl | rfl
    · exact isH2Start_title _
    · decide
    · decide
    · decide
  have hcatBS : BlockSep (catPart (finBlocks 1 (classify_content reports).financial).2
      (sectionsOf (classify_content reports))) := blockSep_catPart _ _ hsec1
  have hcatH2P : H2Pre (catPart (finBlocks 1 (classify_content reports).financial).2
      (sectionsOf (classify_content reports))) :=
    h2Pre_catPart _ _ (fun p hp r hrm =>
      ⟨((hsec1 p hp).1 r hrm).1, ((hsec1 p hp).1 r hrm).2.1⟩)
  refine ⟨?_, ?_, ?_, ?_⟩
  · simp only [md_lines]
    refine BlockSep_append _ _ (BlockSep_append _ _ (BlockSep_append _ _
      (BlockSep_of_noHeads _ hheader) ?_) hcatBS) (BlockSep_of_noHeads _ noHeads_sep)
    by_cases hem : (classify_content reports).financial = []
    · have hbeq : ((classify_content reports).financial == []) = true := by simp [hem]
      rw [hbeq, if_pos rfl]
      exact BlockSep_nil
    · have hbeq : ((classify_content reports).financial == []) = false := by simp [hem]
      rw [hbeq]
      simp only [Bool.false_eq_true, if_false]
      exact BlockSep_append _ _ (blockSep_finBlocks _ _ hfinans)
        (BlockSep_of_noHeads _ noHeads_sep)
  · simp only [md_lines, List.cons_append, List.getD_cons_zero]
    exact isH2Start_title _
  · simp only [md_lines]
    refine H2Pre_append_NoH2 _ _ ?_ noH2_sep
    refine H2Pre_append _ _ ?_ hcatH2P ?_
    · by_cases hem : (classify_content reports).financial = []
      · have hbeq : ((classify_content reports).financial == []) = true := by simp [hem]
        rw [hbeq, if_pos rfl, List.append_nil]
        exact H2Pre_of_NoH2 _ hheaderNoH2
      · have hbeq : ((classify_content reports).financial == []) = false := by simp [hem]
        rw [hbeq]
        simp only [Bool.false_eq_true, if_false]
        refine H2Pre_append _ _ (H2Pre_of_NoH2 _ hheaderNoH2) ?_
          ⟨['#' :: ' ' :: mkTitle year quarter company_name, []], rfl⟩
        exact H2Pre_append_NoH2 _ _
          (h2Pre_finBlocks _ _ (fun r h => (hfinans r h).1)) noH2_sep
    · by_cases hem : (classify_content reports).financial = []
      · have hbeq : ((classify_content reports).financial == []) = true := by simp [hem]
        rw [hbeq, if_pos rfl, List.append_nil]
        exact ⟨['#' :: ' ' :: mkTitle year quarter company_name, []], rfl⟩
      · have hbeq : ((classify_content reports).financial == []) = false := by simp [hem]
        rw [hbeq]
        simp only [Bool.false_eq_true, if_false]
        exact EndsHrBlank_append _ _ (EndsHrBlank_append _ _ ⟨[[]], rfl⟩)
  · simp only [md_lines]
    exact EndsHrBlank_append _ _ ⟨[[]], rfl⟩

/-- Two-record example input: one financial record and one management
record (the example of the spec's testable-properties section). -/
def wRecords : List QARecord :=
  [⟨("营收增长如何？").data, ("营收同比增长20%").data⟩,
   ⟨("管理层变动").data, ("CFO离职").data⟩]

theorem section_numbering_witness :
    h2Numbers (md_lines 2024 3 (some (("ABC Corp").data)) wRecords) = [1, 2] ∧
    h3Pairs (md_lines 2024 3 (some (("ABC Corp").data)) wRecords) = [(2, 1)] := by
  have h := section_numbering 2024 3 (some (("ABC Corp").data)) wRecords (by decide)
  rw [h.1, h.2]
  constructor
  · decide
  · decide

theorem block_and_section_separators_witness :
    BlockSep (md_lines 2024 3 none wRecords) ∧
    isH2Start ((md_lines 2024 3 none wRecords).getD 0 []) = false ∧
    H2Pre (md_lines 2024 3 none wRecords) ∧
    EndsHrBlank (md_lines 2024 3 none wRecords) :=
  block_and_section_separators 2024 3 none wRecords (by decide)

/-- The `data` dictionary of `report_data`; each required key may be absent. -/
structure DataField where
  year : Option Nat
  quarter : Option Nat
  reports : Option (List QARecord)

/-- The `report_data` input; its `data` key may be absent. -/
structure ReportDataIn where
  data : Option DataField

/-- Output dictionary of the MD-report task. -/
structure MdOut where
  md_content : List Char
  file_path : List Char
  status : List Char
  title : List Char
deriving DecidableEq, Repr

/-- `re.sub(r'[<>:"/\\|?*]', '_', name)` on one character. -/
def sanitizeChar (c : Char) : Char :=
  if c == '<' || c == '>' || c == ':' || c == '\"' || c == '/' || c == '\\' ||
      c == '|' || c == '?' || c == '*' then '_' else c

/-- Company-name sanitization: replace filename-unsafe characters and then
spaces by underscores. -/
def sanitizeName (s : List Char) : List Char :=
  (s.map sanitizeChar).map (fun c => if c == ' ' then '_' else c)

def defaultDir : List Char := ("/oomol-driver/oomol-storage").data

/-- Default output filename `{base}_{year}Q{quarter}.md`. -/
def mdFileName (output_filename company_name : Option (List Char))
    (year quarter : Nat) : List Char :=
  (if !(output_filename.getD [] == []) then output_filename.getD []
   else if !(company_name.getD [] == []) then
     sanitizeName (company_name.getD []) ++ ("_financial_report").data
   else ("financial_report").data) ++
    '_' :: natChars year ++ 'Q' :: natChars quarter ++ (".md").data

/-- Save-path resolution of `main`: a truthy `save_path` wins, otherwise the
default storage directory joined with the generated filename. -/
def resolvePath (save_path output_filename company_name : Option (List Char))
    (year quarter : Nat) : List Char :=
  if !(save_path.getD [] == []) then save_path.getD []
  else defaultDir ++ '/' :: mdFileName output_filename company_name year quarter

/-- The success status message with an embedded count. -/
def statusWithCount (n : Nat) : List Char :=
  ("Successfully generated MD report with ").data ++ natChars n ++
    (" Q&A items").data

/-- The wrapped error message `ValueError(f"Failed to generate MD report:
{str(e)}")`, where `str(KeyError(k))` is the quoted key. -/
def failMsg (key : List Char) : List Char :=
  ("Failed to generate MD report: ").data ++ key

/-- `main` of `tasks/generate_md_report` as a pure function: the dictionary
accesses `report_data["data"]`, `data["year"]`, `data["quarter"]`,
`data["reports"]` in source order (a missing key raises `KeyError`, caught
and re-raised as a `ValueError`), then content generation; the file write is
represented by the returned path/content pair of the success value, so a
failure produces no output. -/
def mainMd (rd : ReportDataIn)
    (output_filename company_name save_path : Option (List Char)) :
    Except (List Char) MdOut :=
  match rd.data with
  | none => .error (failMsg (("'data'").data))
  | some d =>
    match d.year with
    | none => .error (failMsg (("'year'").data))
    | some year =>
      match d.quarter with
      | none => .error (failMsg (("'quarter'").data))
      | some quarter =>
        match d.reports with
        | none => .error (failMsg (("'reports'").data))
        | some reports =>
          .ok ⟨(generate_md_report year quarter company_name reports).1,
               resolvePath save_path output_filename company_name year quarter,
               statusWithCount reports.length,
               (generate_md_report year quarter company_name reports).2⟩

/-- Number of input records actually included in the document. -/
def includedCount (reports : List QARecord) : Nat :=
  (reports.filter keptRecord).length

/-- The status field of a task result, when the task succeeded. -/
def statusOf : Except (List Char) MdOut → Option (List Char)
  | .ok o => some o.status
  | .error _ => none

/-- Claim C8: a missing structural field (`data`, `year`, `quarter`,
`reports`, tested in source order) makes the task fail with the descriptive
value error and produce no output, while any record list — including one
with blank records, which are elided per record — yields a success value. -/
theorem structural_error_handling (rd : ReportDataIn)
    (output_filename company_name save_path : Option (List Char)) :
    (rd.data = none → mainMd rd output_filename company_name save_path =
      .error (failMsg (("'data'").data))) ∧
    (∀ d, rd.data = some d →
      (d.year = none → mainMd rd output_filename company_name save_path =
        .error (failMsg (("'year'").data))) ∧
      (∀ y, d.year = some y →
        (d.quarter = none → mainMd rd output_filename company_name save_path =
          .error (failMsg (("'quarter'").data))) ∧
        (∀ q, d.quarter = some q →
          (d.reports = none → mainMd rd output_filename company_name save_path =
            .error (failMsg (("'reports'").data))) ∧
          (∀ rs, d.reports = some rs →
            mainMd rd output_filename company_name save_path =
              .ok ⟨(generate_md_report y q company_name rs).1,
                   resolvePath save_path output_filename company_name y q,
                   statusWithCount rs.length,
                   (generate_md_report y q company_name rs).2⟩)))) := by
  constructor
  · intro h; simp [mainMd, h]
  · intro d hd
    constructor
    · intro h; simp [mainMd, hd, h]
    · intro y hy
      constructor
      · intro h; simp [mainMd, hd, hy, h]
      · intro q hq
        constructor
        · intro h; simp [mainMd, hd, hy, hq, h]
        · intro rs hrs; simp [mainMd, hd, hy, hq, hrs]

theorem structural_error_handling_witness :
    mainMd ⟨some ⟨some 2024, none, some []⟩⟩ none none none =
      .error (failMsg (("'quarter'").data)) :=
  ((structural_error_handling ⟨some ⟨some 2024, none, some []⟩⟩ none none none).2
    ⟨some 2024, none, some []⟩ rfl).2 2024 rfl |>.1 rfl

/-- Claim C6, counterexample: on an input with one kept record and one
blank-question record, the success status message embeds the raw input
length 2, not the included count 1. -/
theorem status_count_cex :
    statusOf (mainMd ⟨some ⟨some 2024, some 3,
        some [⟨("收入").data, ("好").data⟩, ⟨[], ("x").data⟩]⟩⟩ none none none) =
      some (statusWithCount 2) ∧
    includedCount [⟨("收入").data, ("好").data⟩, ⟨[], ("x").data⟩] = 1 ∧
    statusOf (mainMd ⟨some ⟨some 2024, some 3,
        some [⟨("收入").data, ("好").data⟩, ⟨[], ("x").data⟩]⟩⟩ none none none) ≠
      some (statusWithCount (includedCount
        [⟨("收入").data, ("好").data⟩, ⟨[], ("x").data⟩])) := by
  refine ⟨rfl, rfl, ?_⟩
  intro hcontra
  have ha : statusOf (mainMd ⟨some ⟨some 2024, some 3,
      some [⟨("收入").data, ("好").data⟩, ⟨[], ("x").data⟩]⟩⟩ none none none) =
      some (statusWithCount 2) := rfl
  rw [ha] at hcontra
  have h1 : statusWithCount 2 = statusWithCount 1 := Option.some.inj hcontra
  unfold statusWithCount at h1
  have h2 := List.append_cancel_left (List.append_cancel_right h1)
  have h3 : (2 : Nat) = 1 := by
    rw [← parseNat_natChars 2, ← parseNat_natChars 1, h2]
  exact absurd h3 (by omega)

/-- Claim C6 as amended: the status message of a successful run reports the
raw length of the input reports list; this equals the number of included
Q&A items exactly when every record has a non-blank question and answer. -/
theorem status_reports_raw_length (rd : ReportDataIn) (d : DataField)
    (y q : Nat) (rs : List QARecord)
    (output_filename company_name save_path : Option (List Char))
    (hd : rd.data = some d) (hy : d.year = some y) (hq : d.quarter = some q)
    (hrs : d.reports = some rs) :
    statusOf (mainMd rd output_filename company_name save_path) =
      some (statusWithCount rs.length) ∧
    ((∀ r ∈ rs, keptRecord r = true) →
      statusOf (mainMd rd output_filename company_name save_path) =
        some (statusWithCount (includedCount rs))) := by
  have h := ((((structural_error_handling rd output_filename company_name
    save_path).2 d hd).2 y hy).2 q hq).2 rs hrs
  constructor
  · rw [h]; rfl
  · intro hall
    rw [h]
    have : rs.filter keptRecord = rs := List.filter_eq_self.mpr hall
    simp [statusOf, includedCount, this]

theorem status_reports_raw_length_witness :
    statusOf (mainMd ⟨some ⟨some 2024, some 3, some [⟨("收入").data, ("好").data⟩]⟩⟩
      none none none) =
      some (statusWithCount (includedCount [⟨("收入").data, ("好").data⟩])) :=
  (status_reports_raw_length ⟨some ⟨some 2024, some 3,
      some [⟨("收入").data, ("好").data⟩]⟩⟩
    ⟨some 2024, some 3, some [⟨("收入").data, ("好").data⟩]⟩ 2024 3
    [⟨("收入").data, ("好").data⟩] none none none rfl rfl rfl rfl).2 (by decide)

/-- One cached-period entry `{ticker, year, quarter}`; each key may be
absent. -/
structure Period where
  ticker : Option (List Char)
  year : Option Nat
  quarter : Option Nat
deriving DecidableEq, Repr

/-- `period.get("ticker", "Unknown")`. -/
def tickerKey (p : Period) : List Char := p.ticker.getD (("Unknown").data)

/-- One step of building `ticker_groups`: record a first-seen ticker key
(`if ticker not in ticker_groups`). -/
def tickerFold (acc : List (List Char)) (p : Period) : List (List Char) :=
  if tickerKey p ∈ acc then acc else acc ++ [tickerKey p]

/-- The keys of `ticker_groups` in insertion (first-appearance) order. -/
def tickersOf (data : List Period) : List (List Char) :=
  data.foldl tickerFold []

/-- `ticker_groups[t]`: the periods of ticker `t` in input order. -/
def groupOf (data : List Period) (t : List Char) : List Period :=
  data.filter (fun p => tickerKey p == t)

/-- Python string `<=`: lexicographic comparison by code point. -/
def lexLeB : List Char → List Char → Bool
  | [], _ => true
  | _ :: _, [] => false
  | a :: as, b :: bs => if a = b then lexLeB as bs else decide (a < b)

/-- `sorted(ticker_groups.keys())`. -/
def sortedTickers (data : List Period) : List (List Char) :=
  List.insertionSort (fun a b => lexLeB a b = true) (tickersOf data)

/-- The sort key `(x.get("year", 0), x.get("quarter", 0))` compared as a
tuple. -/
def keyLeB (p q : Period) : Bool :=
  decide (p.year.getD 0 < q.year.getD 0) ||
    (p.year.getD 0 == q.year.getD 0 && decide (p.quarter.getD 0 ≤ q.quarter.getD 0))

/-- `sorted(periods, key=lambda x: (x.get("year", 0), x.get("quarter", 0)))`
(a stable sort by the tuple key). -/
def sortedPeriods (ps : List Period) : List Period :=
  List.insertionSort (fun a b => keyLeB a b = true) ps

/-- A present value prints as its decimal rendering, a missing one as
`N/A`. -/
def renderOpt : Option Nat → List Char
  | some n => natChars n
  | none => ("N/A").data

/-- `"Q{quarter} {year}"` when both fields are present, else
`"{year}-{quarter}"`. -/
def periodStr (p : Period) : List Char :=
  match p.quarter, p.year with
  | some q, some y => 'Q' :: (natChars q ++ ' ' :: natChars y)
  | _, _ => renderOpt p.year ++ '-' :: renderOpt p.quarter

/-- One Markdown table row `| {year} | {quarter} | {period} |`. -/
def rowOf (p : Period) : List Char :=
  ("| ").data ++ renderOpt p.year ++ (" | ").data ++ renderOpt p.quarter ++
    (" | ").data ++ periodStr p ++ (" |").data

def tableHeader1 : List Char := ("| Year | Quarter | Period |").data

def tableHeader2 : List Char := ("|------|---------|--------|").data

/-- The lines of one ticker's section: heading, blank, table header rows,
one row per period sorted by `(year, quarter)`, trailing blank. -/
def tickerSection (data : List Period) (t : List Char) : List (List Char) :=
  ('#' :: '#' :: '#' :: ' ' :: t) :: [] :: tableHeader1 :: tableHeader2 ::
    ((sortedPeriods (groupOf data t)).map rowOf ++ [[]])

/-- The six header lines of the periods markdown, with the formatted clock
value `now` embedded in the generated-on line. -/
def periodsHeader (now : List Char) (n : Nat) : List (List Char) :=
  [("# Cached Report Periods").data, [],
   ("*Generated on: ").data ++ now ++ ("*").data, [],
   ("**Total Periods Available: ").data ++ natChars n ++ ("**").data, []]

/-- The markdown lines of `main` of `tasks/generate_periods_markdown`. -/
def periodsLines (now : List Char) (data : List Period) : List (List Char) :=
  periodsHeader now data.length ++
    (if data.length == 0 then [("No cached periods available.").data]
     else ("## Available Periods by Ticker").data :: [] ::
       (sortedTickers data).flatMap (tickerSection data))

/-- `main` of `tasks/generate_periods_markdown` on a valid periods list, as
a pure function of the formatted clock value `now` and the `data` list:
returns `(markdown_output, periods_count)`. -/
def periodsMain (now : List Char) (data : List Period) : List Char × Nat :=
  (joinNl (periodsLines now data), if data.length == 0 then 0 else data.length)

/-- Claim C7, counterexample: two invocations of the periods formatter on
the same (empty) input but at different clock values yield different
markdown, so the operation is not a pure function of its declared input. -/
theorem periods_clock_cex :
    (periodsMain (("2024-01-01 00:00:00").data) []).1 ≠
      (periodsMain (("2024-01-02 12:34:56").data) []).1 := by
  decide

/-- Claim C7 as amended: the classifier and the document assembler are pure
functions of their declared inputs (their embeddings take no clock), and the
periods formatter is pure in `(clock, data)`: its `periods_count` and every
markdown line other than the generated-on line (index 2) are
invocation-independent, while line 2 embeds the clock value. -/
theorem periods_pure_modulo_clock (now₁ now₂ : List Char) (data : List Period) :
    (periodsMain now₁ data).2 = (periodsMain now₂ data).2 ∧
    (periodsLines now₁ data).take 2 = (periodsLines now₂ data).take 2 ∧
    (periodsLines now₁ data).drop 3 = (periodsLines now₂ data).drop 3 ∧
    (periodsLines now₁ data).getD 2 [] =
      ("*Generated on: ").data ++ now₁ ++ ("*").data := by
  refine ⟨rfl, ?_, ?_, ?_⟩ <;>
    simp [periodsLines, periodsHeader, List.take_succ_cons, List.drop_succ_cons,
      List.getD_cons_succ, List.getD_cons_zero]

theorem lexLeB_total (a : List Char) : ∀ b, lexLeB a b = true ∨ lexLeB b a = true := by
  induction a with
  | nil => intro b; left; rfl
  | cons x xs ih =>
    intro b
    cases b with
    | nil => right; rfl
    | cons y ys =>
      by_cases hxy : x = y
      · subst hxy
        simp only [lexLeB, if_pos rfl]
        exact ih ys
      · rcases lt_trichotomy x y with h | h | h
        · left; simp [lexLeB, hxy, h]
        · exact absurd h hxy
        · right; simp [lexLeB, Ne.symm hxy, h]

theorem lexLeB_trans (a : List Char) : ∀ b c, lexLeB a b = true →
    lexLeB b c = true → lexLeB a c = true := by
  induction a with
  | nil => intro b c _ _; rfl
  | cons x xs ih =>
    intro b c h1 h2
    cases b with
    | nil => cases h1
    | cons y ys =>
      cases c with
      | nil => cases h2
      | cons z zs =>
        simp only [lexLeB] at h1 h2 ⊢
        by_cases hxy : x = y
        · subst hxy
          by_cases hxz : x = z
          · subst hxz
            rw [if_pos rfl] at h1 h2 ⊢
            exact ih ys zs h1 h2
          · rw [if_pos rfl] at h1
            rw [if_neg hxz] at h2 ⊢
            exact h2
        · rw [if_neg hxy] at h1
          by_cases hyz : y = z
          · subst hyz
            rw [if_neg hxy]
            exact h1
          · rw [if_neg hyz] at h2
            have hxz : x < z := lt_trans (of_decide_eq_true h1) (of_decide_eq_true h2)
            rw [if_neg (ne_of_lt hxz)]
            exact decide_eq_true hxz

theorem keyLeB_iff (p q : Period) : keyLeB p q = true ↔
    (p.year.getD 0 < q.year.getD 0 ∨ (p.year.getD 0 = q.year.getD 0 ∧
      p.quarter.getD 0 ≤ q.quarter.getD 0)) := by
  simp [keyLeB]

theorem keyLeB_total (p q : Period) : keyLeB p q = true ∨ keyLeB q p = true := by
  rw [keyLeB_iff, keyLeB_iff]
  omega

theorem keyLeB_trans (p q r : Period) (h1 : keyLeB p q = true)
    (h2 : keyLeB q r = true) : keyLeB p r = true := by
  rw [keyLeB_iff] at h1 h2 ⊢
  omega

theorem sortedTickers_sorted (data : List Period) :
    List.Sorted (fun a b => lexLeB a b = true) (sortedTickers data) := by
  haveI : IsTotal (List Char) (fun a b => lexLeB a b = true) := ⟨lexLeB_total⟩
  haveI : IsTrans (List Char) (fun a b => lexLeB a b = true) :=
    ⟨fun a b c => lexLeB_trans a b c⟩
  exact List.sorted_insertionSort _ _

theorem sortedTickers_perm (data : List Period) :
    (sortedTickers data).Perm (tickersOf data) :=
  List.perm_insertionSort _ _

theorem sortedPeriods_sorted (ps : List Period) :
    List.Sorted (fun a b => keyLeB a b = true) (sortedPeriods ps) := by
  haveI : IsTotal Period (fun a b => keyLeB a b = true) := ⟨keyLeB_total⟩
  haveI : IsTrans Period (fun a b => keyLeB a b = true) :=
    ⟨fun a b c => keyLeB_trans a b c⟩
  exact List.sorted_insertionSort _ _

theorem sortedPeriods_perm (ps : List Period) : (sortedPeriods ps).Perm ps :=
  List.perm_insertionSort _ _

/-- Parse a ticker section heading `### {ticker}`. -/
def parseTickerHead (l : List Char) : Option (List Char) :=
  match l with
  | '#' :: '#' :: '#' :: ' ' :: t => some t
  | _ => none

/-- The tickers of the third-level headings of a line list, in order. -/
def tickerHeads (lines : List (List Char)) : List (List Char) :=
  lines.filterMap parseTickerHead

theorem parseTickerHead_row (p : Period) : parseTickerHead (rowOf p) = none := rfl

theorem filterMap_ticker_rows (ps : List Period) :
    List.filterMap parseTickerHead (ps.map rowOf) = [] := by
  induction ps with
  | nil => rfl
  | cons p rest ih =>
    simp only [List.map_cons, List.filterMap_cons, parseTickerHead_row]
    exact ih

theorem filterMap_ticker_section (data : List Period) (t : List Char) :
    List.filterMap parseTickerHead (tickerSection data t) = [t] := by
  simp only [tickerSection, List.filterMap_cons, List.filterMap_append,
    show parseTickerHead ('#' :: '#' :: '#' :: ' ' :: t) = some t from rfl,
    show parseTickerHead ([] : List Char) = none from rfl,
    show parseTickerHead tableHeader1 = none from rfl,
    show parseTickerHead tableHeader2 = none from rfl,
    filterMap_ticker_rows]
  rfl

theorem filterMap_ticker_flatMap (data : List Period) (ts : List (List Char)) :
    List.filterMap parseTickerHead (ts.flatMap (tickerSection data)) = ts := by
  induction ts with
  | nil => rfl
  | cons t rest ih =>
    rw [List.flatMap_cons, List.filterMap_append, filterMap_ticker_section, ih]
    rfl

theorem filterMap_ticker_header (now : List Char) (n : Nat) :
    List.filterMap parseTickerHead (periodsHeader now n) = [] := by
  simp only [periodsHeader, List.filterMap_cons,
    show parseTickerHead (("# Cached Report Periods").data) = none from rfl,
    show parseTickerHead ([] : List Char) = none from rfl,
    show parseTickerHead (("*Generated on: ").data ++ now ++ ("*").data) = none from rfl,
    show parseTickerHead (("**Total Periods Available: ").data ++ natChars n ++
      ("**").data) = none from rfl]
  rfl

/-- Claim C9: the periods formatter emits one `###` heading per ticker with
the tickers in lexicographically sorted order; each ticker's table rows are
its entries sorted by `(year, quarter)` ascending; the Period cell is
`Q{quarter} {year}` when both fields are present and `{year}-{quarter}`
otherwise; the two-period example input for ticker `X` yields one section,
rows in quarter order and count 2; the empty input yields the informational
line, no ticker sections and count 0. -/
theorem periods_formatter_behaviour :
    (∀ now data, tickerHeads (periodsLines now data) = sortedTickers data) ∧
    (∀ data, List.Sorted (fun a b => lexLeB a b = true) (sortedTickers data) ∧
      (sortedTickers data).Perm (tickersOf data)) ∧
    (∀ data t, List.Sorted (fun a b => keyLeB a b = true)
        (sortedPeriods (groupOf data t)) ∧
      (sortedPeriods (groupOf data t)).Perm (groupOf data t)) ∧
    (∀ p : Period, ∀ y q : Nat, p.year = some y → p.quarter = some q →
      periodStr p = 'Q' :: (natChars q ++ ' ' :: natChars y)) ∧
    (∀ p : Period, p.year = none ∨ p.quarter = none →
      periodStr p = renderOpt p.year ++ '-' :: renderOpt p.quarter) ∧
    (∀ now, (periodsMain now [⟨some (("X").data), some 2023, some 1⟩,
        ⟨some (("X").data), some 2023, some 2⟩]).2 = 2 ∧
      tickerHeads (periodsLines now [⟨some (("X").data), some 2023, some 1⟩,
        ⟨some (("X").data), some 2023, some 2⟩]) = [("X").data] ∧
      sortedPeriods (groupOf [⟨some (("X").data), some 2023, some 1⟩,
          ⟨some (("X").data), some 2023, some 2⟩] (("X").data)) =
        [⟨some (("X").data), some 2023, some 1⟩,
         ⟨some (("X").data), some 2023, some 2⟩]) ∧
    (∀ now, (periodsMain now []).2 = 0 ∧
      (periodsLines now []).length = 7 ∧
      (periodsLines now []).getD 6 [] = ("No cached periods available.").data ∧
      tickerHeads (periodsLines now []) = []) := by
  have hmain : ∀ now data, tickerHeads (periodsLines now data) = sortedTickers data := by
    intro now data
    show List.filterMap parseTickerHead (periodsLines now data) = sortedTickers data
    rw [periodsLines, List.filterMap_append, filterMap_ticker_header]
    by_cases hz : data.length = 0
    · have hd : data = [] := List.length_eq_zero.mp hz
      subst hd
      rfl
    · rw [if_neg (by simpa using hz)]
      simp only [List.filterMap_cons,
        show parseTickerHead (("## Available Periods by Ticker").data) = none from rfl,
        show parseTickerHead ([] : List Char) = none from rfl,
        filterMap_ticker_flatMap]
      rfl
  refine ⟨hmain, ?_, ?_, ?_, ?_, ?_, ?_⟩
  · exact fun data => ⟨sortedTickers_sorted data, sortedTickers_perm data⟩
  · exact fun data t => ⟨sortedPeriods_sorted _, sortedPeriods_perm _⟩
  · intro p y q hy hq
    simp [periodStr, hy, hq]
  · intro p hp
    rcases hp with hy | hq
    · cases hq : p.quarter <;> simp [periodStr, hy, hq]
    · simp [periodStr, hq]
  · intro now
    refine ⟨rfl, ?_, by decide⟩
    rw [hmain]
    decide
  · intro now
    refine ⟨rfl, ?_, ?_, ?_⟩
    · simp [periodsLines, periodsHeader]
    · rfl
    · rw [hmain]
      rfl

theorem tickersOf_aux (data : List Period) : ∀ acc : List (List Char), acc.Nodup →
    (data.foldl tickerFold acc).Nodup ∧
    (∀ x, x ∈ data.foldl tickerFold acc ↔ x ∈ acc ∨ ∃ p ∈ data, tickerKey p = x) := by
  induction data with
  | nil => intro acc h; simpa using h
  | cons p rest ih =>
    intro acc hacc
    rw [List.foldl_cons]
    by_cases hmem : tickerKey p ∈ acc
    · rw [show tickerFold acc p = acc from by simp [tickerFold, hmem]]
      obtain ⟨h1, h2⟩ := ih acc hacc
      refine ⟨h1, fun x => ?_⟩
      rw [h2 x]
      constructor
      · rintro (hx | ⟨q, hq, rfl⟩)
        · exact Or.inl hx
        · exact Or.inr ⟨q, List.mem_cons_of_mem _ hq, rfl⟩
      · rintro (hx | ⟨q, hq, rfl⟩)
        · exact Or.inl hx
        · rcases List.mem_cons.mp hq with rfl | hq2
          · exact Or.inl hmem
          · exact Or.inr ⟨q, hq2, rfl⟩
    · rw [show tickerFold acc p = acc ++ [tickerKey p] from by simp [tickerFold, hmem]]
      have hnd : (acc ++ [tickerKey p]).Nodup := by
        rw [List.nodup_append]
        refine ⟨hacc, List.nodup_singleton _, ?_⟩
        intro a ha hb
        rw [List.mem_singleton] at hb
        subst hb
        exact hmem ha
      obtain ⟨h1, h2⟩ := ih _ hnd
      refine ⟨h1, fun x => ?_⟩
      rw [h2 x, List.mem_append, List.mem_singleton]
      constructor
      · rintro ((hx | hx) | ⟨q, hq, rfl⟩)
        · exact Or.inl hx
        · exact Or.inr ⟨p, List.mem_cons_self _ _, hx.symm⟩
        · exact Or.inr ⟨q, List.mem_cons_of_mem _ hq, rfl⟩
      · rintro (hx | ⟨q, hq, rfl⟩)
        · exact Or.inl (Or.inl hx)
        · rcases List.mem_cons.mp hq with rfl | hq2
          · exact Or.inl (Or.inr rfl)
          · exact Or.inr ⟨q, hq2, rfl⟩

theorem tickersOf_nodup (data : List Period) : (tickersOf data).Nodup :=
  (tickersOf_aux data [] (by simp)).1

theorem mem_tickersOf (data : List Period) (x : List Char) :
    x ∈ tickersOf data ↔ ∃ p ∈ data, tickerKey p = x := by
  have h := (tickersOf_aux data [] (by simp)).2 x
  simpa using h

theorem sum_map_add_nat (ts : List (List Char)) (f g : List Char → Nat) :
    (ts.map (fun t => f t + g t)).sum = (ts.map f).sum + (ts.map g).sum := by
  induction ts with
  | nil => rfl
  | cons a t ih =>
    simp only [List.map_cons, List.sum_cons, ih]
    omega

theorem sum_indicator_zero (ts : List (List Char)) (x : List Char) (hx : x ∉ ts) :
    (ts.map (fun t => if x = t then 1 else 0)).sum = 0 := by
  induction ts with
  | nil => rfl
  | cons t0 ts' ih =>
    simp only [List.map_cons, List.sum_cons]
    rw [if_neg (fun (h : x = t0) => hx (h ▸ List.mem_cons_self t0 ts')),
      ih (fun h => hx (List.mem_cons_of_mem _ h))]

theorem sum_indicator_one (ts : List (List Char)) (x : List Char)
    (hnd : ts.Nodup) (hx : x ∈ ts) :
    (ts.map (fun t => if x = t then 1 else 0)).sum = 1 := by
  induction ts with
  | nil => cases hx
  | cons t0 ts' ih =>
    obtain ⟨hnm, hnd'⟩ := List.nodup_cons.mp hnd
    rcases List.mem_cons.mp hx with rfl | hmem
    · simp only [List.map_cons, List.sum_cons, if_pos rfl]
      rw [sum_indicator_zero ts' x hnm]
      simp
    · have ht0 : ¬x = t0 := fun h => hnm (h ▸ hmem)
      simp only [List.map_cons, List.sum_cons, if_neg ht0]
      rw [ih hnd' hmem]

theorem sum_groups (ts : List (List Char)) (hnd : ts.Nodup) :
    ∀ data : List Period, (∀ p ∈ data, tickerKey p ∈ ts) →
      (ts.map (fun t => (groupOf data t).length)).sum = data.length := by
  intro data
  induction data with
  | nil => intro; simp [groupOf]
  | cons p rest ih =>
    intro hcov
    have hstep : (ts.map fun t => (groupOf (p :: rest) t).length) =
        ts.map (fun t => (if tickerKey p = t then 1 else 0) + (groupOf rest t).length) := by
      apply List.map_congr_left
      intro t _
      by_cases h : tickerKey p = t <;> simp [groupOf, List.filter_cons, h] <;> omega
    rw [hstep, sum_map_add_nat, sum_indicator_one ts (tickerKey p) hnd
      (hcov p (List.mem_cons_self _ _)),
      ih (fun q hq => hcov q (List.mem_cons_of_mem _ hq))]
    simp [Nat.add_comm]

/-- A table data row: starts with `| ` and is not the fixed column-header
row. -/
def isRowLine (l : List Char) : Bool :=
  (("| ").data).isPrefixOf l && !(l == tableHeader1)

/-- Number of table data rows of a line list. -/
def rowCount (lines : List (List Char)) : Nat := lines.countP isRowLine

theorem rowOf_ne_tableHeader (p : Period) : (rowOf p == tableHeader1) = false := by
  rw [beq_eq_false_iff_ne]
  intro hEq
  have h2 : (rowOf p).getD 2 ' ' = tableHeader1.getD 2 ' ' :=
    congrArg (fun l => l.getD 2 ' ') hEq
  rcases hy : p.year with _ | y
  · rw [show (rowOf p).getD 2 ' ' = (renderOpt p.year ++ (" | ").data ++
        renderOpt p.quarter ++ (" | ").data ++ periodStr p ++ (" |").data).getD 0 ' '
        from rfl, hy] at h2
    have h3 : ('N' : Char) = 'Y' := h2
    exact absurd h3 (by decide)
  · have hc : natChars y ≠ [] := natChars_ne_nil y
    rcases hnc : natChars y with _ | ⟨c, cs⟩
    · exact hc hnc
    · have hcd : c.isDigit = true :=
        natChars_digits y c (by rw [hnc]; exact List.mem_cons_self _ _)
      rw [show (rowOf p).getD 2 ' ' = (renderOpt p.year ++ (" | ").data ++
          renderOpt p.quarter ++ (" | ").data ++ periodStr p ++ (" |").data).getD 0 ' '
          from rfl, hy] at h2
      simp only [renderOpt] at h2
      rw [hnc] at h2
      have h3 : c = 'Y' := h2
      rw [h3] at hcd
      exact absurd hcd (by decide)

theorem isRowLine_rowOf (p : Period) : isRowLine (rowOf p) = true := by
  have hp : (("| ").data).isPrefixOf (rowOf p) = true := by
    rw [List.isPrefixOf_iff_prefix, rowOf]
    simp only [List.append_assoc]
    exact List.prefix_append _ _
  rw [isRowLine, hp, rowOf_ne_tableHeader]
  rfl

theorem countP_rows (ps : List Period) :
    List.countP isRowLine (ps.map rowOf) = ps.length := by
  rw [List.countP_eq_length.mpr]
  · exact List.length_map ps rowOf
  · intro l hl
    obtain ⟨p, _, rfl⟩ := List.mem_map.mp hl
    exact isRowLine_rowOf p

theorem rowCount_section (data : List Period) (t : List Char) :
    List.countP isRowLine (tickerSection data t) = (groupOf data t).length := by
  rw [tickerSection]
  simp only [List.countP_cons, List.countP_append,
    show isRowLine ('#' :: '#' :: '#' :: ' ' :: t) = false from rfl,
    show isRowLine ([] : List Char) = false from by decide,
    show isRowLine tableHeader1 = false from by decide,
    show isRowLine tableHeader2 = false from by decide,
    countP_rows, List.countP_nil]
  rw [(sortedPeriods_perm (groupOf data t)).length_eq]
  simp

theorem rowCount_flatMap (data : List Period) (ts : List (List Char)) :
    List.countP isRowLine (ts.flatMap (tickerSection data)) =
      (ts.map (fun t => (groupOf data t).length)).sum := by
  induction ts with
  | nil => rfl
  | cons t rest ih =>
    rw [List.flatMap_cons, List.countP_append, rowCount_section, ih,
      List.map_cons, List.sum_cons]

theorem rowCount_header (now : List Char) (n : Nat) :
    List.countP isRowLine (periodsHeader now n) = 0 := by
  rw [periodsHeader]
  simp only [List.countP_cons, List.countP_nil,
    show isRowLine (("# Cached Report Periods").data) = false from by decide,
    show isRowLine ([] : List Char) = false from by decide,
    show isRowLine (("*Generated on: ").data ++ now ++ ("*").data) = false from rfl,
    show isRowLine (("**Total Periods Available: ").data ++ natChars n ++
      ("**").data) = false from rfl]
  simp

theorem rowCount_lines (now : List Char) (data : List Period) (hne : data ≠ []) :
    rowCount (periodsLines now data) = data.length := by
  have hz : ¬(data.length == 0) = true := by
    simp [List.length_eq_zero, hne]
  rw [periodsLines, rowCount, List.countP_append, rowCount_header, if_neg hz]
  simp only [List.countP_cons,
    show isRowLine (("## Available Periods by Ticker").data) = false from by decide,
    show isRowLine ([] : List Char) = false from by decide]
  rw [rowCount_flatMap]
  have hnd : (sortedTickers data).Nodup :=
    ((sortedTickers_perm data).nodup_iff).mpr (tickersOf_nodup data)
  have hcov : ∀ p ∈ data, tickerKey p ∈ sortedTickers data := by
    intro p hp
    rw [(sortedTickers_perm data).mem_iff, mem_tickersOf]
    exact ⟨p, hp, rfl⟩
  rw [sum_groups (sortedTickers data) hnd data hcov]
  simp

theorem periods_formatter_behaviour_witness :
    periodStr ⟨some (("X").data), some 2023, some 1⟩ =
      'Q' :: (natChars 1 ++ ' ' :: natChars 2023) :=
  periods_formatter_behaviour.2.2.2.1 ⟨some (("X").data), some 2023, some 1⟩
    2023 1 rfl rfl

/-- Claim C10: an entry with no ticker is grouped under `Unknown` (its group
membership and the `Unknown` heading exist); an entry with no year sorts as
year 0 (before any entry with a positive year) and renders its year cell as
`N/A`; a missing quarter renders as `N/A` in the Period cell;
`periods_count` is the full input length and every entry, complete or not,
contributes exactly one table row. -/
theorem incomplete_periods_handling :
    (∀ (data : List Period) (p : Period), p ∈ data → p.ticker = none →
      p ∈ groupOf data (("Unknown").data) ∧
      ("Unknown").data ∈ sortedTickers data) ∧
    (∀ p q : Period, p.year = none → 0 < q.year.getD 0 →
      keyLeB p q = true ∧ keyLeB q p = false) ∧
    (∀ p : Period, p.year = none →
      rowOf p = ("| N/A | ").data ++ renderOpt p.quarter ++ (" | ").data ++
        periodStr p ++ (" |").data) ∧
    (∀ p : Period, p.quarter = none →
      periodStr p = renderOpt p.year ++ '-' :: ("N/A").data) ∧
    (∀ (now : List Char) (data : List Period),
      (periodsMain now data).2 = data.length) ∧
    (∀ (now : List Char) (data : List Period), data ≠ [] →
      rowCount (periodsLines now data) = data.length) := by
  refine ⟨?_, ?_, ?_, ?_, ?_, ?_⟩
  · intro data p hp ht
    constructor
    · rw [groupOf, List.mem_filter]
      exact ⟨hp, by simp [tickerKey, ht]⟩
    · rw [(sortedTickers_perm data).mem_iff, mem_tickersOf]
      exact ⟨p, hp, by simp [tickerKey, ht]⟩
  · intro p q hy hq
    constructor
    · rw [keyLeB_iff, hy]
      simp only [Option.getD_none]
      omega
    · cases hk : keyLeB q p
      · rfl
      · rw [keyLeB_iff, hy] at hk
        simp only [Option.getD_none] at hk
        omega
  · intro p hy
    rw [rowOf, hy]
    rfl
  · intro p hq
    cases hy : p.year <;> simp [periodStr, hq, hy, renderOpt]
  · intro now data
    by_cases h : data.length = 0
    · simp [periodsMain, h, List.length_eq_zero.mp h]
    · simp [periodsMain, h]
  · exact rowCount_lines

theorem incomplete_periods_handling_witness :
    (⟨none, some 2023, none⟩ : Period) ∈
      groupOf [⟨none, some 2023, none⟩] (("Unknown").data) ∧
    ("Unknown").data ∈ sortedTickers [(⟨none, some 2023, none⟩ : Period)] :=
  incomplete_periods_handling.1 [⟨none, some 2023, none⟩] ⟨none, some 2023, none⟩
    (List.mem_cons_self _ _) rfl
